import Mathlib

/-!
Verification of the openAPC harvesting / cost-reconciliation engine
(`python/opencost_toolkit_v2.py` and `python/do_harvest.py`) against its
natural-language specification.

The embedding models Python dictionaries as ordered association lists
(`AList`), Python floats as rationals, Python `None` as an explicit value
constructor, and uncaught Python exceptions as a `crash` error, so that the
source's control flow (including its `try`/`except` blocks and the dict
insertion-order semantics) is reproduced faithfully.
-/

namespace OpenAPC

/-- A Python value as it occurs in the toolkit's data dictionaries:
a string, a float (modelled as a rational), or `None`. -/
inductive Val where
  | str : String → Val
  | num : Rat → Val
  | nul : Val
deriving DecidableEq, Repr

/-- An ordered association list with string keys, modelling a Python dict
(insertion order preserved, at most one binding per key in well-formed use). -/
abbrev AList (α : Type) := List (String × α)

/-- Python `d[k]` / `k in d`: first binding wins (well-formed dicts have unique keys). -/
def aget {α : Type} : AList α → String → Option α
  | [], _ => none
  | (k0, v0) :: d, k => if k0 = k then some v0 else aget d k

/-- Python `k in d`. -/
def amem {α : Type} (d : AList α) (k : String) : Bool := (aget d k).isSome

/-- Python `d[k] = v`: replace the binding in place if the key exists,
otherwise append a new binding (dict insertion order). -/
def aset {α : Type} : AList α → String → α → AList α
  | [], k, v => [(k, v)]
  | (k0, v0) :: d, k, v => if k0 = k then (k0, v) :: d else (k0, v0) :: aset d k v

/-- Python `del d[k]`: remove the (first) binding of the key. -/
def adel {α : Type} : AList α → String → AList α
  | [], _ => []
  | (k0, v0) :: d, k => if k0 = k then d else (k0, v0) :: adel d k

/-- The toolkit's data dictionaries (string keys, heterogeneous values). -/
abbrev Assoc := AList Val

/-- An error outcome: `fail` models a function returning its `ret` dict with
`success = False` and the given `error_msg`; `crash` models an uncaught
Python exception (`TypeError`, `KeyError`, `NameError`, ...). -/
inductive PyErr where
  | fail : String → PyErr
  | crash : String → PyErr
deriving DecidableEq, Repr

/-- Modelled from the spec: `openapc_toolkit.has_value` (the repository's
shared toolkit module, not part of the sources under scrutiny) — the
"implicit truthiness check for has-a-value (empty-string-as-absent)" with the
`NA` placeholder also counting as absent. -/
def hasValue (s : String) : Bool := !(s = "" || s = "NA")

/-- Modelled from the spec: the has-a-value truthiness check applied to a
non-string value — numbers are governed by Python truthiness (zero is falsy),
`None` is falsy. -/
def hasValueV : Val → Bool
  | .str s => hasValue s
  | .num q => !(q = 0)
  | .nul => false

/-- Python `round` ties-to-even rounding of a rational to an integer. -/
def roundHalfEven (q : Rat) : Int :=
  let f : Int := q.floor
  let r : Rat := q - (f : Rat)
  if r < 1/2 then f
  else if 1/2 < r then f + 1
  else if f % 2 = 0 then f else f + 1

/-- Python `round(x, 2)`: round to two decimal places. -/
def round2 (q : Rat) : Rat := ((roundHalfEven (q * 100) : Int) : Rat) / 100

/-- Python `a + b` on data-dict values: float addition, string concatenation,
anything else is an uncaught `TypeError`. -/
def vadd : Val → Val → Except PyErr Val
  | .num a, .num b => .ok (.num (a + b))
  | .str a, .str b => .ok (.str (a ++ b))
  | _, _ => .error (.crash "TypeError: unsupported operand types for +")

/-- Python `a < b` on data-dict values: numeric or lexicographic string
comparison; mixed or `None` operands raise `TypeError`. -/
def vlt : Val → Val → Except PyErr Bool
  | .num a, .num b => .ok (decide (a < b))
  | .str a, .str b => .ok (decide (a < b))
  | _, _ => .error (.crash "TypeError: unorderable types for <")

/-- Python `v > 0` on a data-dict value: only numbers compare; a string or
`None` operand raises `TypeError`. -/
def vgtZero : Val → Except PyErr Bool
  | .num a => .ok (decide (0 < a))
  | _ => .error (.crash "TypeError: not comparable with int")

/-- Python `str(v)` on a data-dict value (floats print with a trailing `.0`
when integral; non-integral rationals print in fraction form, which the
claims never exercise). -/
def numRepr (q : Rat) : String :=
  if q.den = 1 then toString q.num ++ ".0" else toString q

/-- Python `str()` applied to a data-dict value. -/
def pyStr : Val → String
  | .str s => s
  | .num q => numRepr q
  | .nul => "None"

/-- Python `d[k]` where a missing key is an uncaught `KeyError`. -/
def dgetE (d : Assoc) (k : String) : Except PyErr Val :=
  match aget d k with
  | some v => .ok v
  | none => .error (.crash ("KeyError: " ++ k))

/-- The source's date regex `\d{4}-[0-1]{1}\d(-[0-3]{1}\d)?` matched at the
start of the string (`re.match`): four digits, a dash, a `0`/`1`, a digit;
the optional day group never affects whether the match succeeds. -/
def dateLike (s : String) : Bool :=
  match s.data with
  | c0 :: c1 :: c2 :: c3 :: c4 :: c5 :: c6 :: _ =>
    c0.isDigit && c1.isDigit && c2.isDigit && c3.isDigit &&
      (c4 = '-') && (c5 = '0' || c5 = '1') && c6.isDigit
  | _ => false

/-- The source's date preprocessing: a date-shaped string is truncated to its
four-digit year (`result.text[:4]`), anything else is kept verbatim. -/
def formatDate (s : String) : String := if dateLike s then s.take 4 else s

/-- External collaborators consumed by the engine (spec section 6):
the locale-tolerant numeric parser (`None` on failure), the annual
exchange-rate service (`none` models the `ValueError` raised for an unknown
currency; the inner `none` a missing period key), and the DOI normalizer. -/
structure Ext where
  atof : String → Option Rat
  rates : String → Option (String → Option Rat)
  normDoi : String → Option String

/-- Digit-string parser used by the concrete witness collaborator. -/
def parseDigits (cs : List Char) : Option Nat :=
  if cs.all Char.isDigit then
    some (cs.foldl (fun n c => n * 10 + (c.toNat - 48)) 0)
  else none

/-- Split a character list at the first dot. -/
def splitDot : List Char → List Char × Option (List Char)
  | [] => ([], none)
  | c :: rest =>
    if c = '.' then ([], some rest)
    else
      let p := splitDot rest
      (c :: p.1, p.2)

/-- Plain decimal parser (`123`, `4.56`, `-7.8`), a concrete stand-in for the
external locale-tolerant numeric parser, used to instantiate witnesses. -/
def simpleAtof (s : String) : Option Rat :=
  if s = "" then none
  else
    let core : List Char → Option Rat := fun cs =>
      match splitDot cs with
      | (ip, none) => (parseDigits ip).map (fun n => (n : Rat))
      | (ip, some fp) =>
        match parseDigits ip, parseDigits fp with
        | some n, some f => some ((n : Rat) + (f : Rat) / ((10 : Rat) ^ fp.length))
        | _, _ => none
    match s.data with
    | '-' :: rest => (core rest).map Neg.neg
    | cs => core cs

/-- Concrete collaborator instance for witnesses: the simple decimal parser,
no known currencies, a DOI normalizer that always fails (yielding `NA`). -/
def ext0 : Ext :=
  { atof := simpleAtof
    rates := fun _ => none
    normDoi := fun _ => none }

/-!
## Invoice Extractor (`_process_oc_invoice_data`, lines 115-203)

One `amount_paid` element of an invoice: the `currency` and `cost_type`
children are schema-required (the source dereferences their `.text` without a
check and would crash on their absence), the `amount` child's text may be
missing (`amount is not None` is checked in the source). An `amount_paid` or
date element whose own text is missing is skipped by the source
(`if result is None or result.text is None: continue`) and is therefore
omitted from the embedded element lists at this boundary.
-/

/-- One `amount_paid` entry of an invoice element. -/
structure AmountPaid where
  currency : String
  costType : String
  amount : Option String
deriving DecidableEq, Repr

/-- An openCost invoice element: the text contents of the `dates//paid`,
`dates//invoice` and `amounts_paid//amount_paid` query results, in document
order. -/
structure InvoiceElement where
  datesPaid : List String
  datesInvoice : List String
  amountsPaid : List AmountPaid
deriving DecidableEq, Repr

/-- Error message `conv_no_period` of `_process_oc_invoice_data`. -/
def msgConvNoPeriod : String :=
  "Automated conversion to EUR failed - no period value found."

/-- Error message `conv_failed` of `_process_oc_invoice_data` (formatted with
the text of the `ValueError` raised by the exchange-rate service; modelled
here as a function of the currency). -/
def msgConvFailed (cur : String) : String :=
  "Automated conversion to EUR failed - no exchange rates for " ++ cur

/-- Error message `conv_no_rate` of `_process_oc_invoice_data`. -/
def msgConvNoRate (cur period : String) : String :=
  "Automated conversion to EUR failed - No annual exchange rate available for currency "
    ++ cur ++ " and period " ++ period ++ "."

/-- Error message `multiple_vats` of `_process_oc_invoice_data`. -/
def msgMultipleVats : String :=
  "Encountered more than one cost_type \"vat\". Data might be ambiguous, please check manually. "

/-- Date processing of `_process_oc_invoice_data` (lines 151-156): each
`findall` result for a date field overwrites `data[field]` with the
year-truncated text. -/
def procDates (field : String) (texts : List String) (data : Assoc) : Assoc :=
  texts.foldl (fun d t => aset d field (.str (formatDate t))) data

/-- Exchange-rate lookup of `_process_oc_invoice_data` (lines 172-182): an
unknown currency surfaces the service's `ValueError` as `conv_failed`; a
missing period key in the rate table (including a non-string period, which
also raises `KeyError`) surfaces as `conv_no_rate`. -/
def lookupRate (ext : Ext) (cur : String) (period : Val) : Except PyErr Rat :=
  match ext.rates cur with
  | none => .error (.fail (msgConvFailed cur))
  | some rateMap =>
    match period with
    | .str p =>
      match rateMap p with
      | some r => .ok r
      | none => .error (.fail (msgConvNoRate cur p))
    | v => .error (.fail (msgConvNoRate cur (pyStr v)))

/-- Currency conversion of `_process_oc_invoice_data` (line 183):
`round(value/float(exchange_rate), 2)`; a `None` value or a zero rate is an
uncaught exception. -/
def convertToEuro (value : Val) (r : Rat) : Except PyErr Val :=
  match value with
  | .num q =>
    if r = 0 then .error (.crash "ZeroDivisionError")
    else .ok (.num (round2 (q / r)))
  | _ => .error (.crash "TypeError: unsupported operand types for /")

/-- Processing of one `amount_paid` entry (lines 157-200): parse the amount
(`0.0` when the amount text is missing, the parser's result — possibly `None`
— otherwise), convert a non-EUR currency at the invoice's resolved period,
then store under the cost type, rejecting a duplicate `vat` in strict mode
and summing other duplicates. -/
def procAmount (ext : Ext) (strictVat : Bool) (data : Assoc) (a : AmountPaid) :
    Except PyErr Assoc := do
  let value0 : Val :=
    match a.amount with
    | none => .num 0
    | some s =>
      match ext.atof s with
      | some q => .num q
      | none => .nul
  let value1 ←
    if a.currency = "EUR" then pure value0
    else do
      let period ←
        match aget data "date_paid" with
        | some p => pure p
        | none =>
          match aget data "date_invoice" with
          | some p => pure p
          | none => throw (.fail msgConvNoPeriod)
      let rate ← lookupRate ext a.currency period
      convertToEuro value0 rate
  let target := a.costType
  let value2 ←
    if amem data target then
      if (target = "vat") ∧ strictVat then throw (.fail msgMultipleVats)
      else vadd ((aget data target).getD .nul) value1
    else pure value1
  pure (aset data target value2)

/-- `_process_oc_invoice_data` (lines 115-203): the three cost-data xpaths
are processed in dict order (`date_paid`, `date_invoice`, `amount_paid`);
a successful run returns the accumulated data dict. -/
def processInvoiceData (ext : Ext) (inv : InvoiceElement) (strictVat : Bool) :
    Except PyErr Assoc := do
  let data : Assoc := procDates "date_paid" inv.datesPaid []
  let data := procDates "date_invoice" inv.datesInvoice data
  inv.amountsPaid.foldlM (procAmount ext strictVat) data

/-!
## Publication Cost Resolver (`_process_oc_publication_cost_data`, lines 424-537)
-/

/-- The `part_of_contract` element of a publication cost_data element: the
optional text contents of `primary_identifier/value` and `invoice_id`
(a child whose text is missing is skipped by the source). -/
structure PartOfContract where
  primaryIdentifier : Option String
  invoiceId : Option String
deriving DecidableEq, Repr

/-- A publication cost_data element: an optional `part_of_contract` reference
and the invoice elements. -/
structure PubCostData where
  partOfContract : Option PartOfContract
  invoices : List InvoiceElement
deriving DecidableEq, Repr

/-- Error message `gold_hybrid_mix` of `_process_oc_publication_cost_data`. -/
def msgGoldHybridMix : String :=
  "Encountered cost types \"gold-oa\" and \"hybrid-oa\" for the same publication."

/-- Error message `no_date` of `_process_oc_publication_cost_data`. -/
def msgNoDate : String :=
  "No date value found and the publication is not part of any contract."

/-- Contract-reference extraction (lines 474-480): the two part-of-contract
xpaths in dict order, skipping fields whose element or text is missing. -/
def contractFields (p : Option PartOfContract) : Assoc :=
  match p with
  | none => []
  | some poc =>
    let d : Assoc :=
      match poc.primaryIdentifier with
      | some t => aset [] "contract_primary_identifier" (.str t)
      | none => []
    match poc.invoiceId with
    | some t => aset d "contract_invoice_id" (.str t)
    | none => d

/-- Merge of one field of one invoice into the accumulated data
(lines 493-513): a new field is added; conflicting dates keep the earliest
(lexicographically smallest) value; monetary fields are added. -/
def mergeField (final : Assoc) (field : String) (value : Val) :
    Except PyErr Assoc :=
  if ¬ amem final field then pure (aset final field value)
  else if field = "date_paid" ∨ field = "date_invoice" then
    let old := (aget final field).getD .nul
    if value = old then pure final
    else do
      let lt ← vlt value old
      if lt then pure (aset final field value) else pure final
  else do
    let s ← vadd ((aget final field).getD .nul) value
    pure (aset final field s)

/-- Merge of one extracted invoice dict into the accumulated data
(lines 490-513), iterating its items in dict order. -/
def mergeInvoice (final : Assoc) (inv : Assoc) : Except PyErr Assoc :=
  inv.foldlM (fun f p => mergeField f p.1 p.2) final

/-- Merge of all extracted invoice dicts (lines 490-513). -/
def mergeInvoices (final : Assoc) (invs : List Assoc) : Except PyErr Assoc :=
  invs.foldlM mergeInvoice final

/-- Final consistency checks and field mapping of
`_process_oc_publication_cost_data` (lines 514-537): gold/hybrid conflict
check, `euro`/`is_hybrid` mapping (adding `vat` when present), and period
resolution, which is only an error when no `contract_invoice_id` was
extracted. -/
def finalizePubData (data : Assoc) : Except PyErr Assoc := do
  if amem data "gold-oa" && amem data "hybrid-oa" then
    throw (.fail msgGoldHybridMix)
  let d1 ←
    if amem data "gold-oa" then do
      let e ←
        if amem data "vat" then
          vadd ((aget data "gold-oa").getD .nul) ((aget data "vat").getD .nul)
        else pure ((aget data "gold-oa").getD .nul)
      pure (aset (aset data "euro" e) "is_hybrid" (.str "FALSE"))
    else pure data
  let d2 ←
    if amem d1 "hybrid-oa" then do
      let e ←
        if amem d1 "vat" then
          vadd ((aget d1 "hybrid-oa").getD .nul) ((aget d1 "vat").getD .nul)
        else pure ((aget d1 "hybrid-oa").getD .nul)
      pure (aset (aset d1 "euro" e) "is_hybrid" (.str "TRUE"))
    else pure d1
  if amem d2 "date_paid" then
    pure (aset d2 "period" ((aget d2 "date_paid").getD .nul))
  else if amem d2 "date_invoice" then
    pure (aset d2 "period" ((aget d2 "date_invoice").getD .nul))
  else if ¬ amem d2 "contract_invoice_id" then throw (.fail msgNoDate)
  else pure d2

/-- Steps 1 and 2 of `_process_oc_publication_cost_data`: contract-reference
extraction, per-invoice extraction (strict VAT), and the merge of all
invoice dicts. -/
def mergeStage (ext : Ext) (pcd : PubCostData) : Except PyErr Assoc := do
  let invs ← pcd.invoices.mapM (fun ie => processInvoiceData ext ie true)
  mergeInvoices (contractFields pcd.partOfContract) invs

/-- `_process_oc_publication_cost_data` (lines 424-537): merge stage followed
by the final checks and mapping. -/
def processPubCostData (ext : Ext) (pcd : PubCostData) : Except PyErr Assoc :=
  mergeStage ext pcd >>= finalizePubData

/-!
## Contract Cost Resolver (`_process_oc_contract_cost_data`, lines 205-286)
-/

/-- A contract invoice element: the embedded payment data plus the
`findall` text results for the four metadata xpaths (`invoice_id`,
`invoice_period//from`, `invoice_period//to`, `dates//date_invoice`). -/
structure ContractInvoiceElement where
  invoice : InvoiceElement
  invoiceIds : List String
  fromTexts : List String
  toTexts : List String
  dateInvoiceTexts : List String
deriving DecidableEq, Repr

/-- Error message `from_to_diff` of `_process_oc_contract_cost_data`. -/
def msgFromToDiff (id fromV toV : String) : String :=
  "Invoice " ++ id ++ ": Different period values in from and to fields, could not determine an invoice period ("
    ++ fromV ++ " vs " ++ toV ++ ")."

/-- Error message `no_invoice_id` of `_process_oc_contract_cost_data`. -/
def msgNoInvoiceId : String :=
  "A contract invoice has no invoice_id."

/-- Error message `from_or_to_missing` of `_process_oc_contract_cost_data`. -/
def msgFromOrToMissing (id : String) : String :=
  "Invoice " ++ id ++ ": The from or to element is missing (or both)."

/-- Warning `date_invoice_only` of `_process_oc_contract_cost_data`. -/
def msgDateInvoiceOnly (id : String) : String :=
  "Warning: Period for invoice " ++ id
    ++ " could only be inferred from the date_invoice element, which might be inaccurate (should be extracted from from and to instead)"

/-- Metadata extraction of `_process_oc_contract_cost_data` (lines 244-257):
the four invoice xpaths in dict order; `from`, `to` and `date_invoice` texts
are year-truncated when date-shaped, `invoice_id` is kept verbatim. -/
def contractMetaData (cie : ContractInvoiceElement) (data : Assoc) : Assoc :=
  let d1 := cie.invoiceIds.foldl (fun d t => aset d "invoice_id" (.str t)) data
  let d2 := cie.fromTexts.foldl (fun d t => aset d "from" (.str (formatDate t))) d1
  let d3 := cie.toTexts.foldl (fun d t => aset d "to" (.str (formatDate t))) d2
  cie.dateInvoiceTexts.foldl (fun d t => aset d "date_invoice" (.str (formatDate t))) d3

/-- Payment summation of `_process_oc_contract_cost_data` (lines 263-267):
`invoice_total` starts at `0` and accumulates the `read`, `publishing` and
`vat` fields over the items of the data dict. -/
def sumPayments (data : Assoc) : Except PyErr Val :=
  data.foldlM
    (fun acc p =>
      if p.1 = "read" ∨ p.1 = "publishing" ∨ p.1 = "vat" then vadd acc p.2
      else pure acc)
    (Val.num 0)

/-- Period resolution of `_process_oc_contract_cost_data` (lines 268-282):
equal `from`/`to` give the period; different values are an error naming the
invoice; otherwise a present `date_invoice` supplies the period with a
downgraded-confidence warning; otherwise the period is missing. -/
def resolveInvoicePeriod (invoiceId : String) (data : Assoc) :
    Except PyErr (Assoc × List String) :=
  if amem data "from" && amem data "to" then
    let f := (aget data "from").getD .nul
    let t := (aget data "to").getD .nul
    if f = t then .ok (aset data "invoice_period" f, [])
    else .error (.fail (msgFromToDiff invoiceId (pyStr f) (pyStr t)))
  else if amem data "date_invoice" then
    .ok (aset data "invoice_period" ((aget data "date_invoice").getD .nul),
         [msgDateInvoiceOnly invoiceId])
  else .error (.fail (msgFromOrToMissing invoiceId))

/-- Processing of one contract invoice element (lines 239-283): payment data
(lenient VAT), metadata, invoice-id check, total, period. Returns the
invoice dict together with the warnings printed for it. -/
def processContractInvoice (ext : Ext) (cie : ContractInvoiceElement) :
    Except PyErr (Assoc × List String) := do
  let data ← processInvoiceData ext cie.invoice false
  let data := contractMetaData cie data
  match aget data "invoice_id" with
  | none => throw (.fail msgNoInvoiceId)
  | some idv =>
    if ¬ hasValueV idv then throw (.fail msgNoInvoiceId)
    else do
      let data := aset data "invoice_total" (Val.num 0)
      let total ← sumPayments data
      let data := aset data "invoice_total" total
      resolveInvoicePeriod (pyStr idv) data

/-- `_process_oc_contract_cost_data` (lines 205-286): all invoice elements in
order, stopping at the first failure. -/
def processContractCostData (ext : Ext) (cies : List ContractInvoiceElement) :
    Except PyErr (List Assoc × List String) :=
  cies.foldlM
    (fun acc cie => do
      let (d, ws) ← processContractInvoice ext cie
      pure (acc.1 ++ [d], acc.2 ++ ws))
    ([], [])

/-!
## Contract Distributor (`_apply_contract_data`, lines 539-596)

The publication records reaching this stage are the `publication_data` dicts
of `process_opencost_xml`: every field of `OPENCOST_EXTRACTION_FIELDS`
initialised to the string `NA` and then overlaid with the resolved cost data.
-/

/-- The keys of `OPENCOST_EXTRACTION_FIELDS` (lines 24-47), in order. -/
def opencostExtractionFields : List String :=
  ["institution_ror", "institution", "period", "euro", "doi", "is_hybrid",
   "type", "contract_primary_identifier", "contract_invoice_id", "gold-oa",
   "vat", "colour charge", "cover charge", "hybrid-oa", "other",
   "page charge", "permission", "publication charge", "reprint",
   "submission fee", "payment fee", "url"]

/-- A fresh `publication_data` dict (line 395): every extraction field bound
to the placeholder string `NA`. -/
def defaultRecord : Assoc :=
  opencostExtractionFields.map (fun f => (f, Val.str "NA"))

/-- Overlay of the resolved cost data onto a publication record
(lines 409-411): only fields already present in the record are copied. -/
def overlayCostData (pub : Assoc) (cost : Assoc) : Assoc :=
  cost.foldl (fun p kv => if amem p kv.1 then aset p kv.1 kv.2 else p) pub

/-- Warning `cost_assigned` of `_apply_contract_data`. -/
def msgCostAssigned (doi ct amt id : String) : String :=
  "Warning: Record (" ++ doi ++ ") has assigned non-zero costs of type " ++ ct
    ++ " (" ++ amt
    ++ " EUR), but is also linked to a contract via an invoice_id (" ++ id
    ++ "). Record cost data was kept, please note that this record does not count towards the total number under the specific contract."

/-- Warning `no_records` of `_apply_contract_data`. -/
def msgNoRecords (id : String) : String :=
  "Warning: No Records were found matching the contract invoice_id " ++ id

/-- The pre-existing-cost check of `_apply_contract_data` (lines 571-577) for
one cost type: `oat.has_value(record[cost_type]) and record[cost_type] > 0`
emits the kept-as-is warning. The `continue` on line 577 belongs to the inner
`for cost_type` loop and is its last statement, so it never skips the record:
this function only produces the warning text. -/
def costWarn (invId : Val) (r : Assoc) (ct : String) :
    Except PyErr (List String) :=
  match aget r ct with
  | none => .error (.crash ("KeyError: " ++ ct))
  | some v =>
    if hasValueV v then
      match vgtZero v with
      | .error e => .error e
      | .ok gt =>
        if gt then
          match aget r "doi" with
          | none => .error (.crash "KeyError: doi")
          | some doi =>
            .ok [msgCostAssigned (pyStr doi) ct (pyStr v) (pyStr invId)]
        else .ok []
    else .ok []

/-- First pass of `_apply_contract_data` over one record (lines 566-579):
skip records without a matching contract invoice id; for a matching record
emit the pre-existing-cost warnings, count it, and tag it with
`target_invoice_id` — the record is counted and tagged even when a warning
fired, because the inner loop's `continue` does not reach the record loop. -/
def markRecord (invId : Val) (r : Assoc) :
    Except PyErr (Assoc × Nat × List String) :=
  match aget r "contract_invoice_id" with
  | none => .error (.crash "KeyError: contract_invoice_id")
  | some cid =>
    if ¬ hasValueV cid then .ok (r, 0, [])
    else if cid ≠ invId then .ok (r, 0, [])
    else
      match costWarn invId r "gold-oa" with
      | .error e => .error e
      | .ok w1 =>
        match costWarn invId r "hybrid-oa" with
        | .error e => .error e
        | .ok w2 => .ok (aset r "target_invoice_id" invId, 1, w1 ++ w2)

/-- First pass of `_apply_contract_data` over the record list for one
invoice: tagged records, match count, warnings. -/
def markPass (invId : Val) : List Assoc → Except PyErr (List Assoc × Nat × List String)
  | [] => .ok ([], 0, [])
  | r :: rs =>
    match markRecord invId r with
    | .error e => .error e
    | .ok (r2, c, ws) =>
      match markPass invId rs with
      | .error e => .error e
      | .ok (rs2, n, ws2) => .ok (r2 :: rs2, c + n, ws ++ ws2)

/-- Second pass of `_apply_contract_data` over one record (lines 589-595):
a record tagged for this invoice receives the distributed `euro`, the
invoice's period and `is_hybrid = TRUE`, and loses its tag. -/
def assignRecord (invId : Val) (costs : Rat) (period : Val) (r : Assoc) : Assoc :=
  if aget r "target_invoice_id" = some invId then
    adel
      (aset (aset (aset r "euro" (.num costs)) "period" period)
        "is_hybrid" (.str "TRUE"))
      "target_invoice_id"
  else r

/-- The body of the per-invoice loop of `_apply_contract_data`
(lines 564-595): mark and count the matching records; zero matches is a
warning and leaves the records untouched; otherwise distribute
`round(invoice_total / count, 2)` over the tagged records. -/
def distributeOne (invId : Val) (invoice : Assoc) (records : List Assoc) :
    Except PyErr (List Assoc × List String) :=
  match markPass invId records with
  | .error e => .error e
  | .ok (rs, n, ws) =>
    if n = 0 then .ok (rs, ws ++ [msgNoRecords (pyStr invId)])
    else
      match aget invoice "invoice_total" with
      | none => .error (.crash "KeyError: invoice_total")
      | some (.num t) =>
        match aget invoice "invoice_period" with
        | none => .error (.crash "KeyError: invoice_period")
        | some p =>
          .ok (rs.map (assignRecord invId (round2 (t / (n : Rat))) p), ws)
      | some _ => .error (.crash "TypeError: unsupported operand types for /")

/-- Invoice-dict construction of `_apply_contract_data` (lines 556-563):
keyed by `invoice_id`; a duplicate id aborts the run (the source calls
`sys.exit()` without having imported `sys`, so this is an uncaught
`NameError` — fatal either way). -/
def buildInvoiceDict (invoices : List Assoc) : Except PyErr (AList Assoc) :=
  invoices.foldlM
    (fun d inv => do
      let idv ← dgetE inv "invoice_id"
      if d.any (fun p => decide (p.1 = pyStr idv)) then
        throw (.crash "duplicate invoice_id: sys.exit (NameError: sys)")
      else pure (d ++ [(pyStr idv, inv)]))
    []

/-- `_apply_contract_data` (lines 539-596): build the invoice dict, then run
the distribution loop for each invoice in insertion order, threading the
record list. Returns the records and the warnings printed. -/
def applyContractData (records : List Assoc) (invoices : List Assoc) :
    Except PyErr (List Assoc × List String) := do
  let dict ← buildInvoiceDict invoices
  dict.foldlM
    (fun (acc : List Assoc × List String) p => do
      let (rs, ws) ← distributeOne (.str p.1) p.2 acc.1
      pure (rs, acc.2 ++ ws))
    (records, [])

/-!
## Record Reconciler (`process_opencost_oai_records`, lines 331-358)

Per-record postprocessing for the one-publication-per-record case the source
assumes (`# Should only be one`): iterate the snapshot of the record's keys,
stringify each non-`None` value, normalise the DOI, and validate the `euro`
field — a `break` (failed euro check) drops the record, otherwise it is kept
(Python `for`/`else`). The OAI `identifier` assignment and the optional
`processing_instructions` templating act before this loop and are orthogonal
to the checks; an input record may simply already contain their fields.
-/

/-- Message printed when a record has no APC amount (line 350). -/
def msgNoApc : String := "Article skipped, no APC amount found."

/-- Message printed when a record has a non-positive APC amount (line 354). -/
def msgNonPositiveApc (euro : String) : String :=
  "Article skipped, non-positive APC amount found (" ++ euro ++ ")."

/-- The postprocessing loop over the key snapshot (lines 338-356). A value of
`None` skips all processing for its key (the `if publication[key] is not
None` guard), so a `None` euro bypasses the euro validation entirely.
Returns `none` when the record is dropped by a `break`. -/
def postprocessKeys (ext : Ext) : Assoc → List String → Option Assoc
  | pub, [] => some pub
  | pub, k :: ks =>
    match aget pub k with
    | none => postprocessKeys ext pub ks
    | some Val.nul => postprocessKeys ext pub ks
    | some v =>
      let s := pyStr v
      let pub1 := aset pub k (.str s)
      let pub2 :=
        if k = "doi" then
          match ext.normDoi s with
          | none => aset pub1 "doi" (.str "NA")
          | some nd => aset pub1 "doi" (.str nd)
        else pub1
      if k = "euro" then
        if ¬ hasValue s then none
        else
          match ext.atof s with
          | some f => if f ≤ 0 then none else postprocessKeys ext pub2 ks
          | none => postprocessKeys ext pub2 ks
      else postprocessKeys ext pub2 ks

/-- Postprocessing of one publication record (lines 338-358): the loop runs
over `list(publication.keys())`, a snapshot of the keys in insertion
order. -/
def postprocessPublication (ext : Ext) (pub : Assoc) : Option Assoc :=
  postprocessKeys ext pub (pub.map Prod.fst)

/-- The reconciler's final assembly for a batch of one-publication records:
records surviving postprocessing, in order. -/
def reconcilePublications (ext : Ext) (pubs : List Assoc) : List Assoc :=
  pubs.filterMap (postprocessPublication ext)

/-!
## Incremental Merge (`do_harvest.integrate_changes`, lines 32-122)

Articles and CSV rows are string-to-string dicts (the harvested articles are
stringified before reaching this stage, and CSV cells are strings). A row as
produced by `csv.DictReader` binds exactly the header's fieldnames, in
order. The numeric parser `oat._auto_atof` is passed in as the external
collaborator it is. The existing dataset is given as its row list (the
source's early return for a missing file is the no-dataset case, outside
this model).
-/

/-- A string-valued dict: a harvested article or a CSV row. -/
abbrev SMap := AList String

/-- A reported column update: (row url, column, old value, new value). -/
abbrev Chg := String × String × String × String

/-- The columns preserved from manual enrichment (line 65). -/
def enrichedBlacklist : List String :=
  ["institution", "publisher", "journal_full_title", "issn", "license_ref", "pmid"]

/-- Result of one merge run: the rewritten row list, the articles that
matched no row (`list(article_dict.values())`), the reported column updates,
the removed stale row PIDs, and the once-reported unmatched keys. -/
structure MergeOutcome where
  lines : List SMap
  unmatched : List SMap
  changes : List Chg
  removals : List String
  ukeys : List String
deriving DecidableEq, Repr

/-- `article_dict` construction (lines 66-71): keyed by the article's `url`
(its OAI PID), skipping articles whose url has no value; a missing `url` key
is an uncaught `KeyError`. -/
def buildArticleDict (articles : List SMap) : Except PyErr (AList SMap) :=
  articles.foldlM
    (fun d a =>
      match aget a "url" with
      | none => throw (.crash "KeyError: url")
      | some url => if hasValue url then pure (aset d url a) else pure d)
    []

/-- `unmatched_keys` accumulation (lines 90-91): append once. -/
def addUKey (ks : List String) (k : String) : List String :=
  if ks.contains k then ks else ks ++ [k]

/-- State of the per-article update loop over one matched row. -/
structure UpdState where
  row : SMap
  changes : List Chg
  ukeys : List String
deriving DecidableEq, Repr

/-- The euro special case of the update loop (lines 95-100): when both the
existing and the incoming euro value parse, numeric equality suppresses the
update (avoiding spurious diffs from formatting). -/
def euroSkipB (atof : String → Option Rat) (key old value : String) : Bool :=
  key = "euro" &&
    match atof old, atof value with
    | some o, some n => decide (o = n)
    | _, _ => false

/-- One step of the update loop (lines 88-103) for one `(key, value)` item of
the matched article: keys absent from the row are collected; blacklisted
keys are skipped for an enriched file; the `euro` column is compared
numerically and skipped when numerically equal; otherwise a differing value
is written and reported. -/
def updStep (atof : String → Option Rat) (enriched : Bool) (url : String)
    (st : UpdState) (kv : String × String) : UpdState :=
  match aget st.row kv.1 with
  | none => { st with ukeys := addUKey st.ukeys kv.1 }
  | some old =>
    if enriched && enrichedBlacklist.contains kv.1 then st
    else if euroSkipB atof kv.1 old kv.2 then st
    else if kv.2 ≠ old then
      { row := aset st.row kv.1 kv.2
        changes := st.changes ++ [(url, kv.1, old, kv.2)]
        ukeys := st.ukeys }
    else st

/-- The update loop over all items of the matched article (lines 88-103),
starting from the global `unmatched_keys` accumulator. -/
def updateRow (atof : String → Option Rat) (enriched : Bool) (url : String)
    (uk : List String) (r : SMap) (art : SMap) : UpdState :=
  art.foldl (updStep atof enriched url) ⟨r, [], uk⟩

/-- `[line[key] for key in fieldnames]` (lines 84, 105): rebuild the row in
header order; a fieldname missing from the row is an uncaught `KeyError`. -/
def reconstructRow (fieldnames : List String) (r : SMap) : Except PyErr SMap :=
  match fieldnames with
  | [] => .ok []
  | k :: ks =>
    match aget r k with
    | some v => do
      let rest ← reconstructRow ks r
      pure ((k, v) :: rest)
    | none => .error (.crash ("KeyError: " ++ k))

/-- The row loop of `integrate_changes` (lines 80-108): placeholder rows
(no institution value) are copied through; a row whose url matches a pending
article is updated and the article retired; an unmatched non-placeholder row
is reported stale and dropped. Returns the new rows, the reported changes and
removals, the final article dict and the unmatched-keys accumulator. -/
def runRows (atof : String → Option Rat) (enriched : Bool)
    (fieldnames : List String) (dict : AList SMap) (uk : List String) :
    List SMap → Except PyErr (List SMap × List Chg × List String × AList SMap × List String)
  | [] => .ok ([], [], [], dict, uk)
  | row :: rest => do
    let url ←
      match aget row "url" with
      | some u => pure u
      | none => throw (.crash "KeyError: url")
    let inst ←
      match aget row "institution" with
      | some i => pure i
      | none => throw (.crash "KeyError: institution")
    if ¬ hasValue inst then do
      let line ← reconstructRow fieldnames row
      let (ls, chs, rms, d2, uk2) ← runRows atof enriched fieldnames dict uk rest
      pure (line :: ls, chs, rms, d2, uk2)
    else
      match aget dict url with
      | some art => do
        let ust := updateRow atof enriched url uk row art
        let line ← reconstructRow fieldnames ust.row
        let (ls, chs, rms, d2, uk2) ←
          runRows atof enriched fieldnames (adel dict url) ust.ukeys rest
        pure (line :: ls, ust.changes ++ chs, rms, d2, uk2)
      | none => do
        let (ls, chs, rms, d2, uk2) ← runRows atof enriched fieldnames dict uk rest
        pure (ls, chs, url :: rms, d2, uk2)

/-- `integrate_changes` (lines 32-122) over an existing dataset: build the
article dict, run the row loop, rewrite the dataset to the produced lines
(the non-dry-run file write), and return the articles that matched no
row. -/
def integrate (atof : String → Option Rat) (enriched : Bool)
    (fieldnames : List String) (articles : List SMap) (rows : List SMap) :
    Except PyErr MergeOutcome := do
  let dict ← buildArticleDict articles
  let (ls, chs, rms, d2, uk2) ← runRows atof enriched fieldnames dict [] rows
  pure ⟨ls, d2.map Prod.snd, chs, rms, uk2⟩

/-!
## Predicates and concrete data used by the claims
-/

/-- The match test of the distribution loop (lines 567-570): the record's
`contract_invoice_id` has a value and equals the invoice id. -/
def matchedB (invId : Val) (r : Assoc) : Bool :=
  match aget r "contract_invoice_id" with
  | some v => hasValueV v && decide (v = invId)
  | none => false

/-- Well-formedness of a record's cost-type field for the distribution
warning check: the field is present and is either numeric or has no value
(so `record[cost_type] > 0` cannot raise). -/
def costOkB (r : Assoc) (ct : String) : Bool :=
  match aget r ct with
  | some (.num _) => true
  | some v => !hasValueV v
  | none => false

/-- Concrete record for the C1 scenario: a publication referencing contract
invoice `I1` that already carries a direct gold-oa cost of 150. -/
def recDirectCost : Assoc :=
  aset (aset (aset defaultRecord "contract_invoice_id" (.str "I1"))
      "gold-oa" (.num 150))
    "euro" (.num 150)

/-- Concrete record for the C1/C5 scenario: a plain publication referencing
contract invoice `I1`. -/
def recPlain : Assoc := aset defaultRecord "contract_invoice_id" (.str "I1")

/-- Concrete contract invoice for the C1 scenario: id `I1`, total 300,
period 2021. -/
def invoiceI1 : Assoc :=
  [("invoice_id", .str "I1"), ("invoice_total", .num 300),
   ("invoice_period", .str "2021")]

/-- What the source actually produces for `recDirectCost` in the C1 scenario:
the record is counted in the denominator and its cost fields are
overwritten with the distributed share. -/
def recDirectCostOut : Assoc :=
  aset (aset (aset recDirectCost "euro" (.num 100)) "period" (.str "2021"))
    "is_hybrid" (.str "TRUE")

/-- The distributed share assigned to `recPlain` in the C1 scenario. -/
def recPlainOut : Assoc :=
  aset (aset (aset recPlain "euro" (.num 100)) "period" (.str "2021"))
    "is_hybrid" (.str "TRUE")

/-- The publication cost_data element of the C8 scenario: one invoice paid
in 2021 whose single gold-oa amount text is unparsable. -/
def pcdBadEuro : PubCostData :=
  ⟨none, [⟨["2021-05-01"], [], [⟨"EUR", "gold-oa", some "abc"⟩]⟩]⟩

/-- The resolved cost data of `pcdBadEuro`: the unparsable amount surfaced
as a `None` euro. -/
def badEuroCost : Assoc :=
  [("date_paid", .str "2021"), ("gold-oa", Val.nul), ("euro", Val.nul),
   ("is_hybrid", .str "FALSE"), ("period", .str "2021")]

/-- The publication record built from `badEuroCost`: the default record
overlaid with the resolved cost data, carrying `euro = None`. -/
def recBadEuro : Assoc := overlayCostData defaultRecord badEuroCost

/-- A control record for C8 with a positive euro amount. -/
def recPositiveEuro : Assoc :=
  overlayCostData defaultRecord [("euro", Val.num 100), ("period", .str "2021")]

/-- The `url` cell of a row (`line["url"]`, present in well-formed rows). -/
def urlOf (r : SMap) : String := (aget r "url").getD ""

/-- The `institution` cell of a row. -/
def instOf (r : SMap) : String := (aget r "institution").getD ""

/-- A placeholder row of the persisted dataset: no institution value
(line 82); merges copy such rows through unchanged. -/
def placeholderRow (r : SMap) : Prop := hasValue (instOf r) = false

/-- A row as produced by `csv.DictReader` and the merge's own writer: its
keys are exactly the header's fieldnames, in order. -/
def canonicalRow (fieldnames : List String) (r : SMap) : Prop :=
  r.map Prod.fst = fieldnames

/-- The update step for `(key, value)` is a no-op on row `r`: the key is
missing from the row, blacklisted for an enriched file, suppressed by the
euro numeric-equality rule, or already holds the incoming value. -/
def noopAt (atof : String → Option Rat) (enriched : Bool) (r : SMap)
    (key value : String) : Prop :=
  match aget r key with
  | none => True
  | some old =>
    (enriched = true ∧ key ∈ enrichedBlacklist) ∨
    euroSkipB atof key old value = true ∨
    value = old

/-- A row on which re-applying every item of the article changes nothing. -/
def SettledRow (atof : String → Option Rat) (enriched : Bool)
    (r : SMap) (art : SMap) : Prop :=
  ∀ kv ∈ art, noopAt atof enriched r kv.1 kv.2

/-- Well-formedness of an article dict: unique keys, and every stored
article carries its dict key as its url value (with a value). This is the
invariant `buildArticleDict` establishes. -/
def DictWF (d : AList SMap) : Prop :=
  (d.map Prod.fst).Nodup ∧
  ∀ p ∈ d, (p.2.map Prod.fst).Nodup ∧ aget p.2 "url" = some p.1 ∧
    hasValue p.1 = true

/-- A produced dataset row on which a re-run of the merge is a no-op: it is
a placeholder, or its url finds an article against which it is settled. -/
def GoodLine (atof : String → Option Rat) (enriched : Bool)
    (dict : AList SMap) (line : SMap) : Prop :=
  placeholderRow line ∨
  ∃ a, aget dict (urlOf line) = some a ∧ SettledRow atof enriched line a

/-- Distinctness of the urls of non-placeholder rows in a produced
dataset. -/
def DistinctUrls (ls : List SMap) : Prop :=
  ls.Pairwise (fun l1 l2 =>
    ¬ placeholderRow l1 → ¬ placeholderRow l2 → urlOf l1 ≠ urlOf l2)

/-- The concrete header used by the C7 and C10 witnesses. -/
def witFieldnames : List String := ["institution", "url", "euro"]

/-- The concrete incoming article of the C7 witness. -/
def witArticle : SMap := [("institution", "MIT"), ("url", "u1"), ("euro", "100.5")]

/-- The concrete existing dataset row of the C7 witness (its euro cell is
numerically equal to the incoming one but formatted differently). -/
def witRow : SMap := [("institution", "X"), ("url", "u1"), ("euro", "100.50")]

/-- The dataset row after the first C7 witness merge: institution updated,
euro kept in its original formatting. -/
def witRowMerged : SMap := [("institution", "MIT"), ("url", "u1"), ("euro", "100.50")]

/-- The concrete article with a value-less url for the C10 witness. -/
def witNoUrlArticle : SMap := [("institution", "MIT"), ("url", ""), ("euro", "5")]

/-!
## Dictionary lemmas
-/

section AListLemmas

variable {α : Type}

@[simp] theorem aget_nil (k : String) : aget ([] : AList α) k = none := rfl

@[simp] theorem aget_cons (k0 : String) (v0 : α) (d : AList α) (k : String) :
    aget ((k0, v0) :: d) k = if k0 = k then some v0 else aget d k := rfl

@[simp] theorem aset_nil (k : String) (v : α) :
    aset ([] : AList α) k v = [(k, v)] := rfl

@[simp] theorem aset_cons (k0 : String) (v0 : α) (d : AList α) (k : String) (v : α) :
    aset ((k0, v0) :: d) k v
      = if k0 = k then (k0, v) :: d else (k0, v0) :: aset d k v := rfl

@[simp] theorem adel_nil (k : String) : adel ([] : AList α) k = [] := rfl

@[simp] theorem adel_cons (k0 : String) (v0 : α) (d : AList α) (k : String) :
    adel ((k0, v0) :: d) k = if k0 = k then d else (k0, v0) :: adel d k := rfl

theorem aget_aset_self (d : AList α) (k : String) (v : α) :
    aget (aset d k v) k = some v := by
  induction d with
  | nil => simp
  | cons p d ih =>
    obtain ⟨k0, v0⟩ := p
    by_cases h : k0 = k <;> simp [h, ih]

theorem aget_aset_ne (d : AList α) {k k' : String} (v : α) (h : k ≠ k') :
    aget (aset d k v) k' = aget d k' := by
  induction d with
  | nil => simp [h]
  | cons p d ih =>
    obtain ⟨k0, v0⟩ := p
    by_cases h0 : k0 = k
    · subst h0; simp [h]
    · simp [h0, ih]

theorem amem_of_aget {d : AList α} {k : String} {v : α} (h : aget d k = some v) :
    amem d k = true := by
  simp [amem, h]

theorem aget_eq_none_of_amem {d : AList α} {k : String} (h : amem d k = false) :
    aget d k = none := by
  unfold amem at h
  cases hg : aget d k with
  | none => rfl
  | some v => rw [hg] at h; simp at h

theorem map_fst_aset_of_amem (d : AList α) (k : String) (v : α)
    (h : amem d k = true) : (aset d k v).map Prod.fst = d.map Prod.fst := by
  induction d with
  | nil => simp [amem] at h
  | cons p d ih =>
    obtain ⟨k0, v0⟩ := p
    by_cases h0 : k0 = k
    · simp [h0]
    · simp only [amem, aget_cons, if_neg h0] at h
      simp [h0, ih h]

theorem aget_adel_ne (d : AList α) {k k' : String} (h : k ≠ k') :
    aget (adel d k) k' = aget d k' := by
  induction d with
  | nil => simp
  | cons p d ih =>
    obtain ⟨k0, v0⟩ := p
    by_cases h0 : k0 = k
    · subst h0
      have : k0 ≠ k' := h
      simp [this]
    · simp [h0, ih]

theorem adel_aset_not_mem (d : AList α) (k : String) (v : α)
    (h : amem d k = false) : adel (aset d k v) k = d := by
  induction d with
  | nil => simp
  | cons p d ih =>
    obtain ⟨k0, v0⟩ := p
    by_cases h0 : k0 = k
    · simp only [amem, aget_cons, if_pos h0] at h
      simp at h
    · simp only [amem, aget_cons, if_neg h0] at h
      simp [h0, ih h]

theorem adel_aset_comm (d : AList α) {k k' : String} (v : α) (h : k' ≠ k) :
    adel (aset d k' v) k = aset (adel d k) k' v := by
  induction d with
  | nil => simp [h]
  | cons p d ih =>
    obtain ⟨k0, v0⟩ := p
    by_cases h0 : k0 = k'
    · subst h0
      simp [h, Ne.symm h]
    · by_cases h1 : k0 = k
      · subst h1; simp [h0, Ne.symm h0]
      · simp [h0, h1, ih]

theorem mem_of_mem_adel {d : AList α} {k : String} {p : String × α}
    (h : p ∈ adel d k) : p ∈ d := by
  induction d with
  | nil => simp [adel] at h
  | cons q d ih =>
    obtain ⟨k0, v0⟩ := q
    by_cases h0 : k0 = k
    · simp only [adel_cons, if_pos h0] at h
      exact List.mem_cons_of_mem _ h
    · simp only [adel_cons, if_neg h0] at h
      rcases List.mem_cons.mp h with h | h
      · exact h ▸ List.mem_cons_self _ _
      · exact List.mem_cons_of_mem _ (ih h)

theorem aget_of_mem_nodup {d : AList α} {k : String} {v : α}
    (hnd : (d.map Prod.fst).Nodup) (h : (k, v) ∈ d) : aget d k = some v := by
  induction d with
  | nil => simp at h
  | cons p d ih =>
    obtain ⟨k0, v0⟩ := p
    simp only [List.map_cons, List.nodup_cons] at hnd
    rcases List.mem_cons.mp h with h | h
    · injection h with hk hv
      subst hk
      subst hv
      simp
    · have hk0 : k0 ≠ k := by
        intro he
        apply hnd.1
        rw [he]
        exact List.mem_map.mpr ⟨(k, v), h, rfl⟩
      simp [hk0, ih hnd.2 h]

end AListLemmas

/-!
## Claims C2 and C6: the Invoice Extractor
-/

/-- C2: the claim says an `amount_paid` entry whose amount text the numeric
parser cannot parse contributes no value to the resolved cost map. The code
instead stores the parser's `None` result under the entry's cost type: for an
EUR `gold-oa` entry with unparsable amount text the extractor succeeds and
its cost map binds `gold-oa` to `None` — the key is present (third
conjunct), not absent, and the `None` poisons later arithmetic on the
field. -/
theorem c2_unparsable_amount_stored_as_none :
    ext0.atof "abc" = none ∧
    processInvoiceData ext0 ⟨[], [], [⟨"EUR", "gold-oa", some "abc"⟩]⟩ true
      = .ok [("gold-oa", Val.nul)] ∧
    amem [("gold-oa", Val.nul)] "gold-oa" = true :=
  ⟨rfl, rfl, rfl⟩

/-- C6: an invoice with two `vat` amount entries is rejected with the
ambiguous-VAT error in strict mode and resolved to the sum of the two
amounts in lenient mode, for any parser and any two parseable amount
texts. -/
theorem c6_duplicate_vat_strict_vs_lenient (ext : Ext) (sa sb : String)
    (a b : Rat) (ha : ext.atof sa = some a) (hb : ext.atof sb = some b) :
    processInvoiceData ext
        ⟨[], [], [⟨"EUR", "vat", some sa⟩, ⟨"EUR", "vat", some sb⟩]⟩ true
      = .error (.fail msgMultipleVats) ∧
    processInvoiceData ext
        ⟨[], [], [⟨"EUR", "vat", some sa⟩, ⟨"EUR", "vat", some sb⟩]⟩ false
      = .ok [("vat", Val.num (a + b))] := by
  constructor <;>
    (simp [processInvoiceData, procDates, procAmount, ha, hb, List.foldlM]; rfl)

section ConcreteEvaluation

attribute [local semireducible] Rat.add Rat.mul Rat.sub Rat.inv

/-- Witness for C6: the spec's concrete amounts 5.00 and 3.00 — strict mode
rejects, lenient mode yields vat = 8. -/
theorem c6_duplicate_vat_witness :
    processInvoiceData ext0
        ⟨[], [], [⟨"EUR", "vat", some "5.00"⟩, ⟨"EUR", "vat", some "3.00"⟩]⟩ true
      = .error (.fail msgMultipleVats) ∧
    processInvoiceData ext0
        ⟨[], [], [⟨"EUR", "vat", some "5.00"⟩, ⟨"EUR", "vat", some "3.00"⟩]⟩ false
      = .ok [("vat", Val.num 8)] := by
  have h := c6_duplicate_vat_strict_vs_lenient ext0 "5.00" "3.00" 5 3
    (by decide) (by decide)
  refine ⟨h.1, ?_⟩
  have h8 : (5 : Rat) + 3 = 8 := by norm_num
  rw [← h8]
  exact h.2

end ConcreteEvaluation

/-!
## Claims C9 and C3: the Publication Cost Resolver
-/

/-- C9: whenever the merged invoice data of a publication contains both the
`gold-oa` and the `hybrid-oa` cost type, publication cost resolution fails
with the gold/hybrid conflict error, regardless of the bound amounts. -/
theorem c9_gold_hybrid_always_conflict (ext : Ext) (pcd : PubCostData)
    (d : Assoc) (hm : mergeStage ext pcd = .ok d)
    (hg : amem d "gold-oa" = true) (hh : amem d "hybrid-oa" = true) :
    processPubCostData ext pcd = .error (.fail msgGoldHybridMix) := by
  unfold processPubCostData
  rw [hm]
  show finalizePubData d = _
  unfold finalizePubData
  simp [hg, hh]
  rfl

/-- Witness for C9: a publication invoice carrying both a gold-oa and a
hybrid-oa amount is rejected. -/
theorem c9_gold_hybrid_witness :
    processPubCostData ext0
        ⟨none, [⟨["2021"], [], [⟨"EUR", "gold-oa", some "100"⟩,
                                ⟨"EUR", "hybrid-oa", some "50"⟩]⟩]⟩
      = .error (.fail msgGoldHybridMix) :=
  c9_gold_hybrid_always_conflict ext0 _
    [("date_paid", .str "2021"), ("gold-oa", .num 100), ("hybrid-oa", .num 50)]
    rfl rfl rfl

/-- C3 counterexample: the claim says that with no date value a present
`part_of_contract` reference suffices for resolution to succeed with the
period deferred. Here `part_of_contract` is present (it carries a primary
identifier but no `invoice_id`), there are no invoices at all, and
resolution nevertheless fails with the missing-period error — the code
defers only on an extracted `contract_invoice_id`. -/
theorem c3_part_of_contract_not_sufficient :
    (PubCostData.mk (some ⟨some "C1", none⟩) []).partOfContract.isSome = true ∧
    processPubCostData ext0 ⟨some ⟨some "C1", none⟩, []⟩
      = .error (.fail msgNoDate) :=
  ⟨rfl, rfl⟩

/-- C3 (amended): for merged publication cost data with no date value and no
direct gold/hybrid cost, resolution succeeds with the data (and hence the
contract reference fields) passed through unchanged and the period left
unset exactly when a `contract_invoice_id` was extracted; without one it
fails with the missing-period error — a `part_of_contract` element that
yields no invoice id does not defer. -/
theorem c3_deferral_keyed_on_invoice_id (ext : Ext) (pcd : PubCostData)
    (d : Assoc) (hm : mergeStage ext pcd = .ok d)
    (hdp : amem d "date_paid" = false) (hdi : amem d "date_invoice" = false)
    (hg : amem d "gold-oa" = false) (hh : amem d "hybrid-oa" = false) :
    (amem d "contract_invoice_id" = true → processPubCostData ext pcd = .ok d) ∧
    (amem d "contract_invoice_id" = false →
      processPubCostData ext pcd = .error (.fail msgNoDate)) := by
  constructor <;> intro hc <;>
    (unfold processPubCostData; rw [hm]; show finalizePubData d = _;
     unfold finalizePubData; simp [hdp, hdi, hg, hh, hc]; rfl)

/-- Witness for the amended C3: a full contract reference defers (the
reference fields are carried, no period is set), while an absent reference
with no dates is the missing-period error. -/
theorem c3_deferral_witness :
    processPubCostData ext0 ⟨some ⟨some "P1", some "I1"⟩, []⟩
      = .ok [("contract_primary_identifier", .str "P1"),
             ("contract_invoice_id", .str "I1")] ∧
    processPubCostData ext0 ⟨none, []⟩ = .error (.fail msgNoDate) :=
  ⟨(c3_deferral_keyed_on_invoice_id ext0 ⟨some ⟨some "P1", some "I1"⟩, []⟩
      [("contract_primary_identifier", .str "P1"),
       ("contract_invoice_id", .str "I1")] rfl rfl rfl rfl rfl).1 rfl,
   (c3_deferral_keyed_on_invoice_id ext0 ⟨none, []⟩ [] rfl rfl rfl rfl rfl).2 rfl⟩

/-!
## Claim C4: the Contract Cost Resolver's period resolution
-/

/-- C4: invoice-period resolution of the Contract Cost Resolver — equal
`from`/`to` values give that year as the invoice period; different values
fail with the inconsistent-period error naming the invoice; with both
absent, a present `date_invoice` supplies the period together with the
downgraded-confidence warning; with none of the three present it fails with
the missing-period error. -/
theorem c4_contract_invoice_period (id : String) (data : Assoc) :
    (∀ v, aget data "from" = some v → aget data "to" = some v →
      resolveInvoicePeriod id data = .ok (aset data "invoice_period" v, [])) ∧
    (∀ v w, aget data "from" = some v → aget data "to" = some w → v ≠ w →
      resolveInvoicePeriod id data
        = .error (.fail (msgFromToDiff id (pyStr v) (pyStr w)))) ∧
    (∀ dv, amem data "from" = false → amem data "to" = false →
      aget data "date_invoice" = some dv →
      resolveInvoicePeriod id data
        = .ok (aset data "invoice_period" dv, [msgDateInvoiceOnly id])) ∧
    (amem data "from" = false → amem data "to" = false →
      amem data "date_invoice" = false →
      resolveInvoicePeriod id data = .error (.fail (msgFromOrToMissing id))) := by
  refine ⟨?_, ?_, ?_, ?_⟩
  · intro v h1 h2
    unfold resolveInvoicePeriod
    simp [amem_of_aget h1, amem_of_aget h2, h1, h2]
  · intro v w h1 h2 hne
    unfold resolveInvoicePeriod
    simp [amem_of_aget h1, amem_of_aget h2, h1, h2, hne]
  · intro dv h1 h2 h3
    unfold resolveInvoicePeriod
    simp [h1, h2, h3, amem_of_aget h3]
  · intro h1 h2 h3
    unfold resolveInvoicePeriod
    simp [h1, h2, h3]

/-- Witness for C4: the spec's 2021/2021 and 2021/2022 examples, a
date-invoice-only invoice, and an invoice with no period source at all. -/
theorem c4_contract_invoice_period_witness :
    resolveInvoicePeriod "I1" [("from", Val.str "2021"), ("to", Val.str "2021")]
      = .ok ([("from", Val.str "2021"), ("to", Val.str "2021"),
              ("invoice_period", Val.str "2021")], []) ∧
    resolveInvoicePeriod "I1" [("from", Val.str "2021"), ("to", Val.str "2022")]
      = .error (.fail (msgFromToDiff "I1" "2021" "2022")) ∧
    resolveInvoicePeriod "I1" [("date_invoice", Val.str "2020")]
      = .ok ([("date_invoice", Val.str "2020"),
              ("invoice_period", Val.str "2020")], [msgDateInvoiceOnly "I1"]) ∧
    resolveInvoicePeriod "I1" [] = .error (.fail (msgFromOrToMissing "I1")) :=
  ⟨(c4_contract_invoice_period "I1" _).1 (.str "2021") rfl rfl,
   (c4_contract_invoice_period "I1" _).2.1 (.str "2021") (.str "2022") rfl rfl
     (by decide),
   (c4_contract_invoice_period "I1" _).2.2.1 (.str "2020") rfl rfl rfl,
   (c4_contract_invoice_period "I1" _).2.2.2 rfl rfl rfl⟩

/-!
## Claim C1: the "skip" of the Contract Distributor does not skip

The claim (and the source's own `cost_assigned` warning text) says a record
with a pre-existing nonzero direct cost and a contract reference keeps its
cost fields and does not count toward the distribution denominator. The
`continue` on line 577 belongs to the inner `for cost_type` loop (where it is
the last statement, hence a no-op), so `record_count += 1` and the
assignment pass still apply to the record.
-/

section C1Evaluation

attribute [local semireducible] Rat.add Rat.mul Rat.sub Rat.inv

/-- C1: in a scenario with contract invoice `I1` (total 300) matched by
three records of which the first carries a direct gold-oa cost of 150, the
Contract Distributor counts all three records (denominator 3, share 100)
and overwrites the direct-cost record's `euro`, `period` and `is_hybrid`
fields with the distributed share — while printing the warning that claims
the record's cost data was kept and that it does not count toward the
total. -/
theorem c1_direct_cost_record_counted_and_overwritten :
    aget recDirectCost "gold-oa" = some (.num 150) ∧
    aget recDirectCost "euro" = some (.num 150) ∧
    applyContractData [recDirectCost, recPlain, recPlain] [invoiceI1]
      = .ok ([recDirectCostOut, recPlainOut, recPlainOut],
             [msgCostAssigned "NA" "gold-oa" "150.0" "I1"]) ∧
    aget recDirectCostOut "euro" = some (.num (round2 (300 / 3))) ∧
    aget recDirectCostOut "euro" = some (.num 100) ∧
    aget recDirectCostOut "period" = some (.str "2021") ∧
    aget recDirectCostOut "is_hybrid" = some (.str "TRUE") := by
  refine ⟨rfl, rfl, by rfl, by rfl, rfl, rfl, rfl⟩

end C1Evaluation

/-!
## Claim C8: a record with a `None` euro survives the Record Reconciler
-/

section C8Evaluation

attribute [local semireducible] Rat.add Rat.mul Rat.sub Rat.inv

/-- C8: the claim says every record whose euro field is unset or non-positive
after resolution is dropped, so the output only holds positive euro amounts.
The resolution of `pcdBadEuro` (gold-oa amount text unparsable) yields a
record whose euro is `None`; the reconciler's per-key guard
`if publication[key] is not None` then skips the euro validation entirely
and the record is kept in the output with `euro = None`. The control
conjuncts show the validation does fire for string euro values: the default
record (euro `NA`) is dropped and a positive euro record is kept. -/
theorem c8_none_euro_record_kept :
    processPubCostData ext0 pcdBadEuro = .ok badEuroCost ∧
    aget recBadEuro "euro" = some Val.nul ∧
    reconcilePublications ext0 [recBadEuro] = [recBadEuro] ∧
    reconcilePublications ext0 [defaultRecord] = [] ∧
    (reconcilePublications ext0 [recPositiveEuro]).length = 1 := by
  refine ⟨by rfl, rfl, by rfl, by rfl, by rfl⟩

end C8Evaluation

/-!
## Claim C5: the distribution arithmetic of the Contract Distributor
-/

/-- The pre-existing-cost check succeeds (with or without a warning) on any
record whose cost-type field is present and either numeric or value-less. -/
theorem costWarn_ok (invId : Val) (r : Assoc) (ct : String)
    (hok : costOkB r ct = true) (hdoi : (aget r "doi").isSome = true) :
    ∃ w, costWarn invId r ct = .ok w := by
  unfold costOkB at hok
  unfold costWarn
  cases hv : aget r ct with
  | none => rw [hv] at hok; simp at hok
  | some v =>
    rw [hv] at hok
    cases v with
    | num q =>
      by_cases hq : hasValueV (Val.num q) = true
      · simp only [hq, if_true, vgtZero]
        by_cases hgt : (0 : Rat) < q
        · cases hd : aget r "doi" with
          | none => rw [hd] at hdoi; simp at hdoi
          | some dv =>
            exact ⟨[msgCostAssigned (pyStr dv) ct (pyStr (Val.num q)) (pyStr invId)],
              by simp [hgt, hd]⟩
        · exact ⟨[], by simp [hgt]⟩
      · exact ⟨[], by simp [hq]⟩
    | str s =>
      simp at hok
      exact ⟨[], by simp [hok]⟩
    | nul => exact ⟨[], by simp [hasValueV]⟩

/-- A record that does not match the invoice id passes through the first
distribution pass untouched, uncounted and without warnings. -/
theorem markRecord_unmatched {invId : Val} {r : Assoc}
    (hcid : (aget r "contract_invoice_id").isSome = true)
    (hm : matchedB invId r = false) :
    markRecord invId r = .ok (r, 0, []) := by
  unfold matchedB at hm
  unfold markRecord
  cases hc : aget r "contract_invoice_id" with
  | none => rw [hc] at hcid; simp at hcid
  | some cid =>
    rw [hc] at hm
    by_cases hv : hasValueV cid = true
    · have hne : cid ≠ invId := by
        intro he
        subst he
        simp [hv] at hm
      simp [hv, hne]
    · simp [hv]

/-- A matching record is always counted and tagged — the pre-existing-cost
check only contributes warnings (the source's inner-loop `continue`). -/
theorem markRecord_matched {invId : Val} {r : Assoc}
    (hm : matchedB invId r = true) (hg : costOkB r "gold-oa" = true)
    (hh : costOkB r "hybrid-oa" = true) (hdoi : (aget r "doi").isSome = true) :
    ∃ ws, markRecord invId r = .ok (aset r "target_invoice_id" invId, 1, ws) := by
  unfold matchedB at hm
  unfold markRecord
  cases hc : aget r "contract_invoice_id" with
  | none => rw [hc] at hm; simp at hm
  | some cid =>
    rw [hc] at hm
    simp only [Bool.and_eq_true, decide_eq_true_eq] at hm
    obtain ⟨hv, he⟩ := hm
    subst he
    obtain ⟨w1, h1⟩ := costWarn_ok cid r "gold-oa" hg hdoi
    obtain ⟨w2, h2⟩ := costWarn_ok cid r "hybrid-oa" hh hdoi
    exact ⟨w1 ++ w2, by simp [hv, h1, h2]⟩

/-- The first distribution pass tags exactly the matching records and counts
them; the warning list is empty when nothing matches. -/
theorem markPass_spec (invId : Val) (records : List Assoc)
    (hcid : ∀ r ∈ records, (aget r "contract_invoice_id").isSome = true)
    (hg : ∀ r ∈ records, matchedB invId r = true → costOkB r "gold-oa" = true)
    (hh : ∀ r ∈ records, matchedB invId r = true → costOkB r "hybrid-oa" = true)
    (hdoi : ∀ r ∈ records, matchedB invId r = true → (aget r "doi").isSome = true) :
    ∃ ws, markPass invId records
      = .ok (records.map (fun r =>
               if matchedB invId r then aset r "target_invoice_id" invId else r),
             (records.filter (matchedB invId)).length, ws) ∧
      ((records.filter (matchedB invId)).length = 0 → ws = []) := by
  induction records with
  | nil => exact ⟨[], rfl, fun _ => rfl⟩
  | cons r rs ih =>
    obtain ⟨ws2, h2, hz2⟩ := ih
      (fun x hx => hcid x (List.mem_cons_of_mem r hx))
      (fun x hx => hg x (List.mem_cons_of_mem r hx))
      (fun x hx => hh x (List.mem_cons_of_mem r hx))
      (fun x hx => hdoi x (List.mem_cons_of_mem r hx))
    by_cases hm : matchedB invId r = true
    · obtain ⟨ws1, h1⟩ := markRecord_matched hm
        (hg r (List.mem_cons_self r rs) hm)
        (hh r (List.mem_cons_self r rs) hm)
        (hdoi r (List.mem_cons_self r rs) hm)
      refine ⟨ws1 ++ ws2, ?_, ?_⟩
      · simp only [markPass]
        rw [h1, h2]
        simp [hm, List.filter_cons, Nat.add_comm]
      · intro h0
        simp [List.filter_cons, hm] at h0
    · have hmf : matchedB invId r = false := by
        cases hb : matchedB invId r
        · rfl
        · exact absurd hb hm
      have h1 := markRecord_unmatched (hcid r (List.mem_cons_self r rs)) hmf
      refine ⟨ws2, ?_, ?_⟩
      · simp only [markPass]
        rw [h1, h2]
        simp [hmf, List.filter_cons]
      · intro h0
        apply hz2
        simpa [List.filter_cons, hmf] using h0

/-- The assignment pass leaves an untagged record unchanged. -/
theorem assignRecord_untagged {invId : Val} {costs : Rat} {p : Val} {r : Assoc}
    (h : amem r "target_invoice_id" = false) :
    assignRecord invId costs p r = r := by
  unfold assignRecord
  rw [aget_eq_none_of_amem h]
  simp

/-- The assignment pass rewrites a tagged record to the distributed euro
amount, the invoice period and `is_hybrid = TRUE`, removing the tag. -/
theorem assignRecord_tagged {invId : Val} {costs : Rat} {p : Val} {r : Assoc}
    (h : amem r "target_invoice_id" = false) :
    assignRecord invId costs p (aset r "target_invoice_id" invId)
      = aset (aset (aset r "euro" (.num costs)) "period" p)
          "is_hybrid" (.str "TRUE") := by
  unfold assignRecord
  rw [aget_aset_self]
  simp only [if_pos rfl]
  rw [adel_aset_comm _ _ (by decide : ("is_hybrid" : String) ≠ "target_invoice_id")]
  rw [adel_aset_comm _ _ (by decide : ("period" : String) ≠ "target_invoice_id")]
  rw [adel_aset_comm _ _ (by decide : ("euro" : String) ≠ "target_invoice_id")]
  rw [adel_aset_not_mem _ _ _ h]
  simp

/-- C5: for a contract invoice with total `t` and period `p`, the Contract
Distributor with `n` matching records (every record carrying the fields the
loop dereferences) behaves as follows — `n = 0`: the invoice is skipped with
the no-records warning and the records are returned unchanged; `n ≥ 1`:
every matching record is rewritten with `euro = round2(t / n)`, the invoice
period, and `is_hybrid = TRUE` (overwriting whatever those fields held) and
every non-matching record is unchanged. -/
theorem c5_contract_distribution (invId : Val) (invoice : Assoc)
    (records : List Assoc) (t : Rat) (p : Val)
    (hcid : ∀ r ∈ records, (aget r "contract_invoice_id").isSome = true)
    (hg : ∀ r ∈ records, matchedB invId r = true → costOkB r "gold-oa" = true)
    (hh : ∀ r ∈ records, matchedB invId r = true → costOkB r "hybrid-oa" = true)
    (hdoi : ∀ r ∈ records, matchedB invId r = true → (aget r "doi").isSome = true)
    (htgt : ∀ r ∈ records, amem r "target_invoice_id" = false)
    (htotal : aget invoice "invoice_total" = some (.num t))
    (hperiod : aget invoice "invoice_period" = some p) :
    ((records.filter (matchedB invId)).length = 0 →
      distributeOne invId invoice records
        = .ok (records, [msgNoRecords (pyStr invId)])) ∧
    (0 < (records.filter (matchedB invId)).length →
      ∃ ws, distributeOne invId invoice records
        = .ok (records.map (fun r =>
            if matchedB invId r then
              aset (aset (aset r "euro"
                  (.num (round2 (t / ((records.filter (matchedB invId)).length : Rat)))))
                "period" p) "is_hybrid" (.str "TRUE")
            else r), ws)) := by
  obtain ⟨ws, hmark, hz⟩ := markPass_spec invId records hcid hg hh hdoi
  constructor
  · intro h0
    unfold distributeOne
    rw [hmark, h0, hz h0]
    have hall : ∀ r ∈ records, matchedB invId r = false := by
      intro r hr
      cases hb : matchedB invId r
      · rfl
      · exfalso
        have hmem : r ∈ records.filter (matchedB invId) := List.mem_filter.mpr ⟨hr, hb⟩
        rw [List.length_eq_zero.mp h0] at hmem
        simp at hmem
    have hmap : records.map (fun r =>
        if matchedB invId r then aset r "target_invoice_id" invId else r) = records := by
      have hcg := List.map_congr_left (l := records)
        (f := fun r => if matchedB invId r then aset r "target_invoice_id" invId else r)
        (g := id) (fun r hr => by simp [hall r hr])
      simpa using hcg
    rw [hmap]
    simp
  · intro hpos
    have hne : ¬ (records.filter (matchedB invId)).length = 0 := by omega
    refine ⟨ws, ?_⟩
    unfold distributeOne
    rw [hmark]
    simp only [if_neg hne]
    rw [htotal, hperiod]
    simp only [List.map_map]
    refine congrArg (fun l => Except.ok (l, ws)) ?_
    apply List.map_congr_left
    intro r hr
    simp only [Function.comp_apply]
    by_cases hm : matchedB invId r = true
    · simp [hm, assignRecord_tagged (htgt r hr)]
    · have hmf : matchedB invId r = false := by
        cases hb : matchedB invId r
        · rfl
        · exact absurd hb hm
      simp [hmf, assignRecord_untagged (htgt r hr)]

section C5Evaluation

attribute [local semireducible] Rat.add Rat.mul Rat.sub Rat.inv

/-- Witness for C5: the spec's 300.00 invoice with exactly 3 matching
records assigns 100.00, the invoice's period and `is_hybrid = TRUE` to each;
an invoice matched by no record is skipped with the no-records warning and
leaves the records unchanged. -/
theorem c5_contract_distribution_witness :
    (∃ ws, distributeOne (.str "I1") invoiceI1 [recPlain, recPlain, recPlain]
       = .ok ([recPlainOut, recPlainOut, recPlainOut], ws)) ∧
    distributeOne (.str "I2") invoiceI1 [recPlain]
       = .ok ([recPlain], [msgNoRecords "I2"]) := by
  constructor
  · obtain ⟨ws, hws⟩ := (c5_contract_distribution (.str "I1") invoiceI1
      [recPlain, recPlain, recPlain] 300 (.str "2021")
      (by decide) (by decide) (by decide) (by decide) (by decide) rfl rfl).2
      (by decide)
    exact ⟨ws, by rw [hws]; rfl⟩
  · exact (c5_contract_distribution (.str "I2") invoiceI1 [recPlain]
      300 (.str "2021")
      (by decide) (by decide) (by decide) (by decide) (by decide) rfl rfl).1
      (by decide)

end C5Evaluation


/-!
## Claims C7 and C10: the Incremental Merge

The idempotence proof follows the run-rerun structure of the source: the
first run rewrites every surviving row so that re-applying its matched
article is a no-op (`noopAt`/`SettledRow`), keeps placeholder rows
untouched, and leaves the surviving non-placeholder rows with pairwise
distinct urls each still present in a freshly rebuilt article dict; the
second run then reproduces every row verbatim and reports nothing.
-/


theorem aget_isSome_of_mem_keys {α : Type} {d : AList α} {k : String}
    (h : k ∈ d.map Prod.fst) : (aget d k).isSome = true := by
  induction d with
  | nil => simp at h
  | cons p d ih =>
    obtain ⟨k0, v0⟩ := p
    by_cases h0 : k0 = k
    · simp [h0]
    · simp only [List.map_cons, List.mem_cons] at h
      rcases h with h | h
      · exact absurd h.symm h0
      · simp [h0, ih h]

theorem mem_of_aget {α : Type} {d : AList α} {k : String} {v : α}
    (h : aget d k = some v) : (k, v) ∈ d := by
  induction d with
  | nil => simp [aget] at h
  | cons p d ih =>
    obtain ⟨k0, v0⟩ := p
    by_cases h0 : k0 = k
    · simp only [aget_cons, if_pos h0] at h
      injection h with h
      subst h0
      subst h
      exact List.mem_cons_self _ _
    · simp only [aget_cons, if_neg h0] at h
      exact List.mem_cons_of_mem _ (ih h)

theorem aget_adel_self_nodup {α : Type} {d : AList α} {k : String}
    (h : (d.map Prod.fst).Nodup) : aget (adel d k) k = none := by
  induction d with
  | nil => simp
  | cons p d ih =>
    obtain ⟨k0, v0⟩ := p
    simp only [List.map_cons, List.nodup_cons] at h
    by_cases h0 : k0 = k
    · subst h0
      rw [adel_cons, if_pos rfl]
      cases hg : aget d k0 with
      | none => rfl
      | some v => exact absurd (List.mem_map.mpr ⟨(k0, v), mem_of_aget hg, rfl⟩) h.1
    · simp [h0, ih h.2]

theorem adel_sublist {α : Type} (d : AList α) (k : String) :
    (adel d k).Sublist d := by
  induction d with
  | nil => simp
  | cons p d ih =>
    obtain ⟨k0, v0⟩ := p
    by_cases h0 : k0 = k
    · simp only [adel_cons, if_pos h0]
      exact (List.sublist_cons_self _ _)
    · simp only [adel_cons, if_neg h0]
      exact ih.cons₂ _

theorem nodup_keys_adel {α : Type} {d : AList α} (k : String)
    (h : (d.map Prod.fst).Nodup) : ((adel d k).map Prod.fst).Nodup :=
  ((adel_sublist d k).map Prod.fst).nodup h

theorem DictWF_adel {d : AList SMap} (k : String) (h : DictWF d) :
    DictWF (adel d k) :=
  ⟨nodup_keys_adel k h.1, fun p hp => h.2 p (mem_of_mem_adel hp)⟩

theorem updStep_row_cases (atof : String → Option Rat) (enr : Bool) (url : String)
    (st : UpdState) (kv : String × String) :
    ((updStep atof enr url st kv).row = st.row ∧
     (updStep atof enr url st kv).changes = st.changes) ∨
    ((updStep atof enr url st kv).row = aset st.row kv.1 kv.2 ∧
     amem st.row kv.1 = true) := by
  unfold updStep
  cases hg : aget st.row kv.1 with
  | none => left; simp
  | some old =>
    by_cases hb : enr = true ∧ kv.1 ∈ enrichedBlacklist
    · left; simp [hb]
    · by_cases he : euroSkipB atof kv.1 old kv.2 = true
      · left; simp [hb, he]
      · by_cases hv : kv.2 = old
        · left; simp [hb, he, hv]
        · right
          constructor
          · simp [hb, he, hv]
          · simp [amem, hg]

theorem updStep_keys (atof : String → Option Rat) (enr : Bool) (url : String)
    (st : UpdState) (kv : String × String) :
    ((updStep atof enr url st kv).row).map Prod.fst = st.row.map Prod.fst := by
  rcases updStep_row_cases atof enr url st kv with ⟨h, _⟩ | ⟨h, hm⟩
  · rw [h]
  · rw [h]
    exact map_fst_aset_of_amem _ _ _ hm

theorem updStep_aget_ne (atof : String → Option Rat) (enr : Bool) (url : String)
    (st : UpdState) (kv : String × String) {k : String} (h : kv.1 ≠ k) :
    aget ((updStep atof enr url st kv).row) k = aget st.row k := by
  rcases updStep_row_cases atof enr url st kv with ⟨hr, _⟩ | ⟨hr, _⟩
  · rw [hr]
  · rw [hr]
    exact aget_aset_ne _ _ h

theorem noopAt_congr {atof : String → Option Rat} {enr : Bool} {r r' : SMap}
    {key value : String} (hag : aget r key = aget r' key)
    (h : noopAt atof enr r key value) : noopAt atof enr r' key value := by
  unfold noopAt at h ⊢
  rw [← hag]
  exact h

theorem updStep_establishes (atof : String → Option Rat) (enr : Bool) (url : String)
    (st : UpdState) (kv : String × String) :
    noopAt atof enr ((updStep atof enr url st kv).row) kv.1 kv.2 := by
  unfold updStep noopAt
  cases hg : aget st.row kv.1 with
  | none => simp [hg]
  | some old =>
    by_cases hb : enr = true ∧ kv.1 ∈ enrichedBlacklist
    · simp [hg, hb]
    · by_cases he : euroSkipB atof kv.1 old kv.2 = true
      · simp [hg, hb, he]
      · by_cases hv : kv.2 = old
        · simp [hg, hb, he, hv]
        · simp [hg, hb, he, hv, aget_aset_self]

theorem updStep_noop {atof : String → Option Rat} {enr : Bool} {url : String}
    {st : UpdState} {kv : String × String}
    (h : noopAt atof enr st.row kv.1 kv.2) :
    (updStep atof enr url st kv).row = st.row ∧
    (updStep atof enr url st kv).changes = st.changes := by
  unfold noopAt at h
  unfold updStep
  cases hg : aget st.row kv.1 with
  | none => simp
  | some old =>
    rw [hg] at h
    by_cases hb : enr = true ∧ kv.1 ∈ enrichedBlacklist
    · simp [hb]
    · by_cases he : euroSkipB atof kv.1 old kv.2 = true
      · simp [hb, he]
      · rcases h with h | h | h
        · exact absurd h hb
        · exact absurd h he
        · simp [hb, he, h]


theorem foldl_updStep_keys (atof : String → Option Rat) (enr : Bool) (url : String)
    (art : SMap) : ∀ st : UpdState,
    ((art.foldl (updStep atof enr url) st).row).map Prod.fst = st.row.map Prod.fst := by
  induction art with
  | nil => intro st; rfl
  | cons kv tl ih =>
    intro st
    rw [List.foldl_cons, ih]
    exact updStep_keys atof enr url st kv

theorem foldl_updStep_aget_notin (atof : String → Option Rat) (enr : Bool)
    (url : String) (art : SMap) : ∀ (st : UpdState) (k : String),
    k ∉ art.map Prod.fst →
    aget ((art.foldl (updStep atof enr url) st).row) k = aget st.row k := by
  induction art with
  | nil => intro st k _; rfl
  | cons kv tl ih =>
    intro st k hk
    simp only [List.map_cons, List.mem_cons] at hk
    push_neg at hk
    rw [List.foldl_cons, ih _ _ hk.2]
    exact updStep_aget_ne atof enr url st kv (fun he => hk.1 he.symm)

theorem foldl_updStep_establishes (atof : String → Option Rat) (enr : Bool)
    (url : String) (art : SMap) (hnd : (art.map Prod.fst).Nodup) :
    ∀ st : UpdState,
    SettledRow atof enr ((art.foldl (updStep atof enr url) st).row) art := by
  induction art with
  | nil => intro st kv hkv; simp at hkv
  | cons kv tl ih =>
    simp only [List.map_cons, List.nodup_cons] at hnd
    intro st kv' hkv'
    rcases List.mem_cons.mp hkv' with h | h
    · subst h
      rw [List.foldl_cons]
      refine noopAt_congr ?_ (updStep_establishes atof enr url st kv')
      exact (foldl_updStep_aget_notin atof enr url tl _ kv'.1
        (by
          intro hmem
          exact hnd.1 hmem)).symm
    · exact ih hnd.2 (updStep atof enr url st kv) kv' h

theorem foldl_updStep_noop (atof : String → Option Rat) (enr : Bool)
    (url : String) (art : SMap) : ∀ st : UpdState,
    (∀ kv ∈ art, noopAt atof enr st.row kv.1 kv.2) →
    (art.foldl (updStep atof enr url) st).row = st.row ∧
    (art.foldl (updStep atof enr url) st).changes = st.changes := by
  induction art with
  | nil => intro st _; exact ⟨rfl, rfl⟩
  | cons kv tl ih =>
    intro st h
    have h1 := @updStep_noop atof enr url st kv (h kv (List.mem_cons_self _ _))
    rw [List.foldl_cons]
    have h2 := ih (updStep atof enr url st kv)
      (fun kv' hkv' => by
        rw [h1.1]
        exact h kv' (List.mem_cons_of_mem _ hkv'))
    exact ⟨h2.1.trans h1.1, h2.2.trans h1.2⟩

theorem updateRow_row_keys (atof : String → Option Rat) (enr : Bool) (url : String)
    (uk : List String) (r : SMap) (art : SMap) :
    ((updateRow atof enr url uk r art).row).map Prod.fst = r.map Prod.fst :=
  foldl_updStep_keys atof enr url art ⟨r, [], uk⟩

theorem updateRow_establishes (atof : String → Option Rat) (enr : Bool)
    (url : String) (uk : List String) (r : SMap) (art : SMap)
    (hnd : (art.map Prod.fst).Nodup) :
    SettledRow atof enr ((updateRow atof enr url uk r art).row) art :=
  foldl_updStep_establishes atof enr url art hnd ⟨r, [], uk⟩

theorem updateRow_noop (atof : String → Option Rat) (enr : Bool) (url : String)
    (uk : List String) (r : SMap) (art : SMap)
    (h : SettledRow atof enr r art) :
    (updateRow atof enr url uk r art).row = r ∧
    (updateRow atof enr url uk r art).changes = [] :=
  foldl_updStep_noop atof enr url art ⟨r, [], uk⟩ (fun kv hkv => h kv hkv)

theorem updateRow_url (atof : String → Option Rat) (enr : Bool)
    (uk : List String) {r art : SMap} {u : String}
    (hnd : (art.map Prod.fst).Nodup) (hart : aget art "url" = some u)
    (hrow : aget r "url" = some u) :
    aget ((updateRow atof enr u uk r art).row) "url" = some u := by
  have hs := updateRow_establishes atof enr u uk r art hnd ("url", u) (mem_of_aget hart)
  unfold noopAt at hs
  cases hg : aget ((updateRow atof enr u uk r art).row) "url" with
  | none =>
    have hm : "url" ∈ (((updateRow atof enr u uk r art).row).map Prod.fst) := by
      rw [updateRow_row_keys]
      exact List.mem_map.mpr ⟨("url", u), mem_of_aget hrow, rfl⟩
    have := aget_isSome_of_mem_keys hm
    rw [hg] at this
    simp at this
  | some old =>
    rw [hg] at hs
    rcases hs with hs | hs | hs
    · simp [enrichedBlacklist] at hs
    · simp [euroSkipB] at hs
    · simp only at hs
      rw [hs]


theorem reconstructRow_of_lookup (full : SMap) : ∀ r : SMap,
    (∀ kv ∈ r, aget full kv.1 = some kv.2) →
    reconstructRow (r.map Prod.fst) full = .ok r := by
  intro r
  induction r with
  | nil => intro _; rfl
  | cons kv tl ih =>
    intro h
    obtain ⟨k, v⟩ := kv
    simp only [List.map_cons]
    unfold reconstructRow
    rw [h (k, v) (List.mem_cons_self _ _)]
    rw [ih (fun kv' hkv' => h kv' (List.mem_cons_of_mem _ hkv'))]
    rfl

theorem aget_self_of_nodup {r : SMap} (hnd : (r.map Prod.fst).Nodup) :
    ∀ kv ∈ r, aget r kv.1 = some kv.2 := by
  intro kv hkv
  obtain ⟨k, v⟩ := kv
  exact aget_of_mem_nodup hnd hkv

theorem reconstructRow_canonical {fns : List String} {r : SMap}
    (hnd : fns.Nodup) (hc : canonicalRow fns r) :
    reconstructRow fns r = .ok r := by
  unfold canonicalRow at hc
  rw [← hc]
  exact reconstructRow_of_lookup r r (aget_self_of_nodup (hc ▸ hnd))

theorem canonical_aget_isSome {fns : List String} {r : SMap} {k : String}
    (hc : canonicalRow fns r) (hk : k ∈ fns) : (aget r k).isSome = true :=
  aget_isSome_of_mem_keys (by rw [hc]; exact hk)

theorem map_fst_aset_not_mem {α : Type} (d : AList α) (k : String) (v : α)
    (h : amem d k = false) :
    (aset d k v).map Prod.fst = d.map Prod.fst ++ [k] := by
  induction d with
  | nil => simp
  | cons p d ih =>
    obtain ⟨k0, v0⟩ := p
    by_cases h0 : k0 = k
    · simp only [amem, aget_cons, if_pos h0] at h
      simp at h
    · simp only [amem, aget_cons, if_neg h0] at h
      simp [h0, ih h]

theorem mem_aset_cases {α : Type} {d : AList α} {k : String} {v : α} {p : String × α}
    (h : p ∈ aset d k v) : p ∈ d ∨ p = (k, v) := by
  induction d with
  | nil => simp at h; right; exact h
  | cons q d ih =>
    obtain ⟨k0, v0⟩ := q
    by_cases h0 : k0 = k
    · subst h0
      simp only [aset_cons, if_pos rfl] at h
      rcases List.mem_cons.mp h with h | h
      · right; rw [h]
      · left; exact List.mem_cons_of_mem _ h
    · simp only [aset_cons, if_neg h0] at h
      rcases List.mem_cons.mp h with h | h
      · left; rw [h]; exact List.mem_cons_self _ _
      · rcases ih h with h | h
        · left; exact List.mem_cons_of_mem _ h
        · right; exact h

theorem DictWF_aset {d : AList SMap} {u : String} {a : SMap}
    (hwf : DictWF d) (hnd : (a.map Prod.fst).Nodup)
    (hurl : aget a "url" = some u) (hv : hasValue u = true) :
    DictWF (aset d u a) := by
  constructor
  · cases hm : amem d u with
    | true => rw [map_fst_aset_of_amem d u a hm]; exact hwf.1
    | false =>
      rw [map_fst_aset_not_mem d u a hm]
      refine List.Nodup.append hwf.1 (List.nodup_singleton u) ?_
      intro x hx hx'
      simp at hx'
      subst hx'
      have := aget_isSome_of_mem_keys hx
      unfold amem at hm
      rw [hm] at this
      simp at this
  · intro p hp
    rcases mem_aset_cases hp with hp | hp
    · exact hwf.2 p hp
    · subst hp
      exact ⟨hnd, hurl, hv⟩

theorem buildArticleDict_go (arts : List SMap)
    (hart : ∀ a ∈ arts, (a.map Prod.fst).Nodup ∧ (aget a "url").isSome = true) :
    ∀ d0 : AList SMap, DictWF d0 →
    ∃ d, (arts.foldlM (fun d a =>
      match aget a "url" with
      | none => Except.error (PyErr.crash "KeyError: url")
      | some url => if hasValue url then pure (aset d url a) else pure d) d0) = .ok d ∧
      DictWF d := by
  induction arts with
  | nil => intro d0 hwf; exact ⟨d0, rfl, hwf⟩
  | cons a tl ih =>
    intro d0 hwf
    obtain ⟨hnd, hsome⟩ := hart a (List.mem_cons_self _ _)
    obtain ⟨u, hu⟩ := Option.isSome_iff_exists.mp hsome
    have ihtl := ih (fun x hx => hart x (List.mem_cons_of_mem _ hx))
    rw [List.foldlM_cons]
    simp only [hu]
    by_cases hv : hasValue u = true
    · obtain ⟨d, hd, hwf2⟩ := ihtl (aset d0 u a) (DictWF_aset hwf hnd hu hv)
      refine ⟨d, ?_, hwf2⟩
      simp only [if_pos hv, pure_bind]
      exact hd
    · obtain ⟨d, hd, hwf2⟩ := ihtl d0 hwf
      refine ⟨d, ?_, hwf2⟩
      simp only [if_neg hv, pure_bind]
      exact hd

theorem buildArticleDict_wf (articles : List SMap)
    (hart : ∀ a ∈ articles, (a.map Prod.fst).Nodup ∧ (aget a "url").isSome = true) :
    ∃ d, buildArticleDict articles = .ok d ∧ DictWF d :=
  buildArticleDict_go articles hart [] ⟨List.nodup_nil, fun p hp => absurd hp (List.not_mem_nil p)⟩


theorem runRows_cons_placeholder {atof : String → Option Rat} {enr : Bool}
    {fns : List String} {dict : AList SMap} {uk : List String}
    {row : SMap} {rest : List SMap} {u i : String} {line : SMap}
    (hurl : aget row "url" = some u) (hinst : aget row "institution" = some i)
    (hph : ¬ hasValue i = true) (hrec : reconstructRow fns row = .ok line) :
    runRows atof enr fns dict uk (row :: rest)
      = match runRows atof enr fns dict uk rest with
        | .error e => .error e
        | .ok (ls, chs, rms, d2, uk2) => .ok (line :: ls, chs, rms, d2, uk2) := by
  cases hr : runRows atof enr fns dict uk rest with
  | error e =>
    simp only [runRows, hurl, hinst, pure_bind, if_pos hph, hrec, hr]
    rfl
  | ok t =>
    obtain ⟨ls, chs, rms, d2, uk2⟩ := t
    simp only [runRows, hurl, hinst, pure_bind, if_pos hph, hrec, hr]
    rfl

theorem runRows_cons_matched {atof : String → Option Rat} {enr : Bool}
    {fns : List String} {dict : AList SMap} {uk : List String}
    {row : SMap} {rest : List SMap} {u i : String} {art : SMap} {line : SMap}
    (hurl : aget row "url" = some u) (hinst : aget row "institution" = some i)
    (hph : hasValue i = true) (hdict : aget dict u = some art)
    (hrec : reconstructRow fns (updateRow atof enr u uk row art).row = .ok line) :
    runRows atof enr fns dict uk (row :: rest)
      = match runRows atof enr fns (adel dict u)
          (updateRow atof enr u uk row art).ukeys rest with
        | .error e => .error e
        | .ok (ls, chs, rms, d2, uk2) =>
          .ok (line :: ls, (updateRow atof enr u uk row art).changes ++ chs,
               rms, d2, uk2) := by
  cases hr : runRows atof enr fns (adel dict u)
      (updateRow atof enr u uk row art).ukeys rest with
  | error e =>
    simp only [runRows, hurl, hinst, pure_bind, if_neg (not_not_intro hph), hdict,
      hrec, hr]
    rfl
  | ok t =>
    obtain ⟨ls, chs, rms, d2, uk2⟩ := t
    simp only [runRows, hurl, hinst, pure_bind, if_neg (not_not_intro hph), hdict,
      hrec, hr]
    rfl

theorem runRows_cons_removed {atof : String → Option Rat} {enr : Bool}
    {fns : List String} {dict : AList SMap} {uk : List String}
    {row : SMap} {rest : List SMap} {u i : String}
    (hurl : aget row "url" = some u) (hinst : aget row "institution" = some i)
    (hph : hasValue i = true) (hdict : aget dict u = none) :
    runRows atof enr fns dict uk (row :: rest)
      = match runRows atof enr fns dict uk rest with
        | .error e => .error e
        | .ok (ls, chs, rms, d2, uk2) => .ok (ls, chs, u :: rms, d2, uk2) := by
  cases hr : runRows atof enr fns dict uk rest with
  | error e =>
    simp only [runRows, hurl, hinst, pure_bind, if_neg (not_not_intro hph), hdict, hr]
    rfl
  | ok t =>
    obtain ⟨ls, chs, rms, d2, uk2⟩ := t
    simp only [runRows, hurl, hinst, pure_bind, if_neg (not_not_intro hph), hdict, hr]
    rfl


theorem placeholderRow_of {row : SMap} {i : String}
    (hinst : aget row "institution" = some i) (hph : ¬ hasValue i = true) :
    placeholderRow row := by
  unfold placeholderRow instOf
  rw [hinst]
  simpa using hph

theorem not_placeholderRow_of {row : SMap} {i : String}
    (hinst : aget row "institution" = some i) (hph : hasValue i = true) :
    ¬ placeholderRow row := by
  unfold placeholderRow instOf
  rw [hinst]
  simp [hph]

theorem GoodLine_of_adel {atof : String → Option Rat} {enr : Bool}
    {dict : AList SMap} {u : String} {l : SMap}
    (hwf : DictWF dict) (h : GoodLine atof enr (adel dict u) l) :
    GoodLine atof enr dict l ∧ (¬ placeholderRow l → urlOf l ≠ u) := by
  rcases h with h | ⟨b, hb, s⟩
  · exact ⟨Or.inl h, fun hnp => absurd h hnp⟩
  · have hne : urlOf l ≠ u := by
      intro he
      rw [he, aget_adel_self_nodup hwf.1] at hb
      exact Option.noConfusion hb
    have hd : aget dict (urlOf l) = some b :=
      (aget_adel_ne dict (Ne.symm hne)).symm.trans hb
    exact ⟨Or.inr ⟨b, hd, s⟩, fun _ => hne⟩

theorem runRows_post (atof : String → Option Rat) (enr : Bool) (fns : List String)
    (hnd : fns.Nodup) (hu : "url" ∈ fns) (hi : "institution" ∈ fns) :
    ∀ (rows : List SMap) (dict : AList SMap) (uk : List String)
      (ls : List SMap) (chs : List Chg) (rms : List String)
      (d2 : AList SMap) (uk2 : List String),
      DictWF dict →
      (∀ r ∈ rows, canonicalRow fns r) →
      runRows atof enr fns dict uk rows = .ok (ls, chs, rms, d2, uk2) →
      (∀ l ∈ ls, canonicalRow fns l) ∧
      (∀ l ∈ ls, GoodLine atof enr dict l) ∧
      DistinctUrls ls := by
  intro rows
  induction rows with
  | nil =>
    intro dict uk ls chs rms d2 uk2 hwf hcan h
    simp only [runRows, Except.ok.injEq, Prod.mk.injEq] at h
    obtain ⟨h1, _, _, _, _⟩ := h
    subst h1
    exact ⟨fun l hl => absurd hl (List.not_mem_nil l),
           fun l hl => absurd hl (List.not_mem_nil l),
           List.Pairwise.nil⟩
  | cons row rest ih =>
    intro dict uk ls chs rms d2 uk2 hwf hcan h
    have hcanr := hcan row (List.mem_cons_self _ _)
    obtain ⟨u, hurl⟩ := Option.isSome_iff_exists.mp (canonical_aget_isSome hcanr hu)
    obtain ⟨i, hinst⟩ := Option.isSome_iff_exists.mp (canonical_aget_isSome hcanr hi)
    by_cases hph : hasValue i = true
    · cases hda : aget dict u with
      | some art =>
        obtain ⟨hartnd, harturl, hartval⟩ := hwf.2 (u, art) (mem_of_aget hda)
        have hcanust : canonicalRow fns (updateRow atof enr u uk row art).row := by
          unfold canonicalRow
          rw [updateRow_row_keys]
          exact hcanr
        rw [runRows_cons_matched hurl hinst hph hda
          (reconstructRow_canonical hnd hcanust)] at h
        cases hr : runRows atof enr fns (adel dict u)
            (updateRow atof enr u uk row art).ukeys rest with
        | error e => rw [hr] at h; exact absurd h (by simp)
        | ok t =>
          obtain ⟨ls', chs', rms', d2', uk2'⟩ := t
          rw [hr] at h
          simp only [Except.ok.injEq, Prod.mk.injEq] at h
          obtain ⟨hls, _, _, _, _⟩ := h
          subst hls
          obtain ⟨hcan', hgood', hdist'⟩ := ih (adel dict u) _ ls' chs' rms' d2' uk2'
            (DictWF_adel u hwf) (fun r hrr => hcan r (List.mem_cons_of_mem _ hrr)) hr
          have hurl2 : aget ((updateRow atof enr u uk row art).row) "url" = some u :=
            updateRow_url atof enr _ hartnd harturl hurl
          have hu2 : urlOf ((updateRow atof enr u uk row art).row) = u := by
            unfold urlOf
            rw [hurl2]
            rfl
          have hsettled : SettledRow atof enr ((updateRow atof enr u uk row art).row) art :=
            updateRow_establishes atof enr u uk row art hartnd
          refine ⟨?_, ?_, ?_⟩
          · intro l hl
            rcases List.mem_cons.mp hl with h | h
            · subst h; exact hcanust
            · exact hcan' l h
          · intro l hl
            rcases List.mem_cons.mp hl with h | h
            · subst h
              exact Or.inr ⟨art, by rw [hu2]; exact hda, hsettled⟩
            · exact (GoodLine_of_adel hwf (hgood' l h)).1
          · refine List.Pairwise.cons ?_ hdist'
            intro l2 hl2 hnp1 hnp2
            rw [hu2]
            exact Ne.symm ((GoodLine_of_adel hwf (hgood' l2 hl2)).2 hnp2)
      | none =>
        rw [runRows_cons_removed hurl hinst hph hda] at h
        cases hr : runRows atof enr fns dict uk rest with
        | error e => rw [hr] at h; exact absurd h (by simp)
        | ok t =>
          obtain ⟨ls', chs', rms', d2', uk2'⟩ := t
          rw [hr] at h
          simp only [Except.ok.injEq, Prod.mk.injEq] at h
          obtain ⟨hls, _, _, _, _⟩ := h
          subst hls
          exact ih dict uk ls' chs' rms' d2' uk2' hwf
            (fun r hrr => hcan r (List.mem_cons_of_mem _ hrr)) hr
    · rw [runRows_cons_placeholder hurl hinst hph
        (reconstructRow_canonical hnd hcanr)] at h
      cases hr : runRows atof enr fns dict uk rest with
      | error e => rw [hr] at h; exact absurd h (by simp)
      | ok t =>
        obtain ⟨ls', chs', rms', d2', uk2'⟩ := t
        rw [hr] at h
        simp only [Except.ok.injEq, Prod.mk.injEq] at h
        obtain ⟨hls, _, _, _, _⟩ := h
        subst hls
        obtain ⟨hcan', hgood', hdist'⟩ := ih dict uk ls' chs' rms' d2' uk2' hwf
          (fun r hrr => hcan r (List.mem_cons_of_mem _ hrr)) hr
        have hphr : placeholderRow row := placeholderRow_of hinst hph
        refine ⟨?_, ?_, ?_⟩
        · intro l hl
          rcases List.mem_cons.mp hl with h | h
          · subst h; exact hcanr
          · exact hcan' l h
        · intro l hl
          rcases List.mem_cons.mp hl with h | h
          · subst h; exact Or.inl hphr
          · exact hgood' l h
        · refine List.Pairwise.cons ?_ hdist'
          intro l2 hl2 hnp1 hnp2
          exact absurd hphr hnp1


theorem runRows_noop (atof : String → Option Rat) (enr : Bool) (fns : List String)
    (hnd : fns.Nodup) (hu : "url" ∈ fns) (hi : "institution" ∈ fns) :
    ∀ (ls : List SMap) (dict : AList SMap) (uk : List String),
      DictWF dict →
      (∀ l ∈ ls, canonicalRow fns l) →
      (∀ l ∈ ls, GoodLine atof enr dict l) →
      DistinctUrls ls →
      ∃ d2 uk2, runRows atof enr fns dict uk ls = .ok (ls, [], [], d2, uk2) := by
  intro ls
  induction ls with
  | nil => intro dict uk _ _ _ _; exact ⟨dict, uk, rfl⟩
  | cons l tl ih =>
    intro dict uk hwf hcan hgood hdist
    have hcanl := hcan l (List.mem_cons_self _ _)
    obtain ⟨u, hurl⟩ := Option.isSome_iff_exists.mp (canonical_aget_isSome hcanl hu)
    obtain ⟨i, hinst⟩ := Option.isSome_iff_exists.mp (canonical_aget_isSome hcanl hi)
    have hu0 : urlOf l = u := by unfold urlOf; rw [hurl]; rfl
    by_cases hph : hasValue i = true
    · have hnp : ¬ placeholderRow l := not_placeholderRow_of hinst hph
      rcases hgood l (List.mem_cons_self _ _) with hg | ⟨a, ha, hsettled⟩
      · exact absurd hg hnp
      · rw [hu0] at ha
        have hnoop := updateRow_noop atof enr u uk l a hsettled
        have hrec : reconstructRow fns ((updateRow atof enr u uk l a).row) = .ok l := by
          rw [hnoop.1]
          exact reconstructRow_canonical hnd hcanl
        obtain ⟨d2, uk2, htl⟩ := ih (adel dict u) ((updateRow atof enr u uk l a).ukeys)
          (DictWF_adel u hwf)
          (fun x hx => hcan x (List.mem_cons_of_mem _ hx))
          (fun x hx => by
            rcases hgood x (List.mem_cons_of_mem _ hx) with hg | ⟨b, hb, s⟩
            · exact Or.inl hg
            · by_cases hpx : placeholderRow x
              · exact Or.inl hpx
              · have hne : urlOf x ≠ u := by
                  have hrel := (List.pairwise_cons.mp hdist).1 x hx hnp hpx
                  rw [hu0] at hrel
                  exact fun he => hrel he.symm
                refine Or.inr ⟨b, ?_, s⟩
                rw [aget_adel_ne dict (Ne.symm hne)]
                exact hb)
          (List.pairwise_cons.mp hdist).2
        refine ⟨d2, uk2, ?_⟩
        rw [runRows_cons_matched hurl hinst hph ha hrec, htl]
        rw [hnoop.2]
        rfl
    · obtain ⟨d2, uk2, htl⟩ := ih dict uk hwf
        (fun x hx => hcan x (List.mem_cons_of_mem _ hx))
        (fun x hx => hgood x (List.mem_cons_of_mem _ hx))
        (List.pairwise_cons.mp hdist).2
      refine ⟨d2, uk2, ?_⟩
      rw [runRows_cons_placeholder hurl hinst hph (reconstructRow_canonical hnd hcanl),
        htl]


theorem except_ok_bind {ε α β : Type} (a : α) (f : α → Except ε β) :
    (Except.ok a >>= f : Except ε β) = f a := rfl

theorem except_pure_eq_ok {ε α : Type} (a : α) :
    (pure a : Except ε α) = Except.ok a := rfl

theorem except_error_bind {ε α β : Type} (e : ε) (f : α → Except ε β) :
    (Except.error e >>= f : Except ε β) = .error e := rfl

theorem runRows_cons_nourl {atof : String → Option Rat} {enr : Bool}
    {fns : List String} {dict : AList SMap} {uk : List String}
    {row : SMap} {rest : List SMap}
    (hurl : aget row "url" = none) :
    runRows atof enr fns dict uk (row :: rest)
      = .error (.crash "KeyError: url") := by
  simp only [runRows, hurl]
  rfl

theorem runRows_cons_noinst {atof : String → Option Rat} {enr : Bool}
    {fns : List String} {dict : AList SMap} {uk : List String}
    {row : SMap} {rest : List SMap} {u : String}
    (hurl : aget row "url" = some u) (hinst : aget row "institution" = none) :
    runRows atof enr fns dict uk (row :: rest)
      = .error (.crash "KeyError: institution") := by
  simp only [runRows, hurl, hinst, pure_bind]
  rfl

theorem runRows_cons_placeholder_recerr {atof : String → Option Rat} {enr : Bool}
    {fns : List String} {dict : AList SMap} {uk : List String}
    {row : SMap} {rest : List SMap} {u i : String} {e : PyErr}
    (hurl : aget row "url" = some u) (hinst : aget row "institution" = some i)
    (hph : ¬ hasValue i = true) (hrec : reconstructRow fns row = .error e) :
    runRows atof enr fns dict uk (row :: rest) = .error e := by
  simp only [runRows, hurl, hinst, pure_bind, if_pos hph, hrec]
  rfl

theorem runRows_cons_matched_recerr {atof : String → Option Rat} {enr : Bool}
    {fns : List String} {dict : AList SMap} {uk : List String}
    {row : SMap} {rest : List SMap} {u i : String} {art : SMap} {e : PyErr}
    (hurl : aget row "url" = some u) (hinst : aget row "institution" = some i)
    (hph : hasValue i = true) (hdict : aget dict u = some art)
    (hrec : reconstructRow fns ((updateRow atof enr u uk row art).row) = .error e) :
    runRows atof enr fns dict uk (row :: rest) = .error e := by
  simp only [runRows, hurl, hinst, pure_bind, if_neg (not_not_intro hph), hdict, hrec]
  rfl

/-- C7: incremental merge is idempotent. For a well-formed header and
dataset (unique fieldnames containing `url` and `institution`, rows in
DictReader shape) and well-formed harvested articles (dict-shaped, carrying
a `url` key), a first non-dry-run `integrate_changes` application followed by
a second application with the identical incoming article list on the
resulting dataset reports no column updates and no removals and leaves the
dataset rows unchanged. -/
theorem c7_integrate_idempotent (atof : String → Option Rat) (enriched : Bool)
    (fns : List String) (articles rows : List SMap) (out : MergeOutcome)
    (hnd : fns.Nodup) (hu : "url" ∈ fns) (hi : "institution" ∈ fns)
    (hart : ∀ a ∈ articles, (a.map Prod.fst).Nodup ∧ (aget a "url").isSome = true)
    (hrows : ∀ r ∈ rows, canonicalRow fns r)
    (hrun : integrate atof enriched fns articles rows = .ok out) :
    ∃ out2, integrate atof enriched fns articles out.lines = .ok out2 ∧
      out2.changes = [] ∧ out2.removals = [] ∧ out2.lines = out.lines := by
  obtain ⟨dict, hdict, hwf⟩ := buildArticleDict_wf articles hart
  unfold integrate at hrun
  rw [hdict] at hrun
  simp only [except_ok_bind] at hrun
  cases hr : runRows atof enriched fns dict [] rows with
  | error e => rw [hr] at hrun; exact absurd hrun (by simp)
  | ok t =>
    obtain ⟨ls, chs, rms, d2, uk2⟩ := t
    rw [hr] at hrun
    simp only [except_ok_bind, except_pure_eq_ok, Except.ok.injEq] at hrun
    have hlines : out.lines = ls := by rw [← hrun]
    obtain ⟨hcan, hgood, hdist⟩ := runRows_post atof enriched fns hnd hu hi
      rows dict [] ls chs rms d2 uk2 hwf hrows hr
    obtain ⟨d2', uk2', hnoop⟩ := runRows_noop atof enriched fns hnd hu hi
      ls dict [] hwf hcan hgood hdist
    refine ⟨⟨ls, d2'.map Prod.snd, [], [], uk2'⟩, ?_, rfl, rfl, by rw [hlines]⟩
    unfold integrate
    rw [hdict]
    simp only [except_ok_bind]
    rw [hlines, hnoop]
    rfl


theorem runRows_dict_sub (atof : String → Option Rat) (enr : Bool)
    (fns : List String) :
    ∀ (rows : List SMap) (dict : AList SMap) (uk : List String)
      (ls : List SMap) (chs : List Chg) (rms : List String)
      (d2 : AList SMap) (uk2 : List String),
      runRows atof enr fns dict uk rows = .ok (ls, chs, rms, d2, uk2) →
      ∀ p ∈ d2, p ∈ dict := by
  intro rows
  induction rows with
  | nil =>
    intro dict uk ls chs rms d2 uk2 h
    simp only [runRows, Except.ok.injEq, Prod.mk.injEq] at h
    obtain ⟨_, _, _, h4, _⟩ := h
    subst h4
    exact fun p hp => hp
  | cons row rest ih =>
    intro dict uk ls chs rms d2 uk2 h
    cases hurl : aget row "url" with
    | none => rw [runRows_cons_nourl hurl] at h; exact absurd h (by simp)
    | some u =>
      cases hinst : aget row "institution" with
      | none => rw [runRows_cons_noinst hurl hinst] at h; exact absurd h (by simp)
      | some i =>
        by_cases hph : hasValue i = true
        · cases hda : aget dict u with
          | some art =>
            cases hrec : reconstructRow fns ((updateRow atof enr u uk row art).row) with
            | error e =>
              rw [runRows_cons_matched_recerr hurl hinst hph hda hrec] at h
              exact absurd h (by simp)
            | ok line =>
              rw [runRows_cons_matched hurl hinst hph hda hrec] at h
              cases hr : runRows atof enr fns (adel dict u)
                  ((updateRow atof enr u uk row art).ukeys) rest with
              | error e => rw [hr] at h; exact absurd h (by simp)
              | ok t =>
                obtain ⟨ls', chs', rms', d2', uk2'⟩ := t
                rw [hr] at h
                simp only [Except.ok.injEq, Prod.mk.injEq] at h
                obtain ⟨_, _, _, h4, _⟩ := h
                subst h4
                intro p hp
                exact mem_of_mem_adel (ih _ _ _ _ _ _ _ hr p hp)
          | none =>
            rw [runRows_cons_removed hurl hinst hph hda] at h
            cases hr : runRows atof enr fns dict uk rest with
            | error e => rw [hr] at h; exact absurd h (by simp)
            | ok t =>
              obtain ⟨ls', chs', rms', d2', uk2'⟩ := t
              rw [hr] at h
              simp only [Except.ok.injEq, Prod.mk.injEq] at h
              obtain ⟨_, _, _, h4, _⟩ := h
              subst h4
              exact ih _ _ _ _ _ _ _ hr
        · cases hrec : reconstructRow fns row with
          | error e =>
            rw [runRows_cons_placeholder_recerr hurl hinst hph hrec] at h
            exact absurd h (by simp)
          | ok line =>
            rw [runRows_cons_placeholder hurl hinst hph hrec] at h
            cases hr : runRows atof enr fns dict uk rest with
            | error e => rw [hr] at h; exact absurd h (by simp)
            | ok t =>
              obtain ⟨ls', chs', rms', d2', uk2'⟩ := t
              rw [hr] at h
              simp only [Except.ok.injEq, Prod.mk.injEq] at h
              obtain ⟨_, _, _, h4, _⟩ := h
              subst h4
              exact ih _ _ _ _ _ _ _ hr

theorem buildArticleDict_values_go (arts : List SMap) :
    ∀ (d0 d : AList SMap),
      (∀ p ∈ d0, aget p.2 "url" = some p.1 ∧ hasValue p.1 = true) →
      (arts.foldlM (fun d a =>
        match aget a "url" with
        | none => Except.error (PyErr.crash "KeyError: url")
        | some url => if hasValue url then pure (aset d url a) else pure d) d0) = .ok d →
      ∀ p ∈ d, aget p.2 "url" = some p.1 ∧ hasValue p.1 = true := by
  induction arts with
  | nil =>
    intro d0 d hinv h
    simp only [List.foldlM_nil, except_pure_eq_ok, Except.ok.injEq] at h
    subst h
    exact hinv
  | cons a tl ih =>
    intro d0 d hinv h
    rw [List.foldlM_cons] at h
    cases hu : aget a "url" with
    | none =>
      simp only [hu] at h
      exact absurd h (by simp [except_error_bind])
    | some u =>
      simp only [hu] at h
      by_cases hv : hasValue u = true
      · rw [if_pos hv] at h
        simp only [except_pure_eq_ok, except_ok_bind] at h
        refine ih (aset d0 u a) d ?_ h
        intro p hp
        rcases mem_aset_cases hp with hp | hp
        · exact hinv p hp
        · subst hp
          exact ⟨hu, hv⟩
      · rw [if_neg hv] at h
        simp only [except_pure_eq_ok, except_ok_bind] at h
        exact ih d0 d hinv h

theorem buildArticleDict_values {articles : List SMap} {d : AList SMap}
    (h : buildArticleDict articles = .ok d) :
    ∀ p ∈ d, aget p.2 "url" = some p.1 ∧ hasValue p.1 = true :=
  buildArticleDict_values_go articles [] d
    (fun p hp => absurd hp (List.not_mem_nil p)) h

/-- C10: an incoming article whose `url` field holds no value (empty or the
`NA` placeholder) never enters the article dict `integrate_changes` matches
rows against — every stored article carries a url with a value, so the
article cannot be among the dict's stored articles — and it is absent from
the returned unmatched-article list. -/
theorem c10_valueless_url_articles_discarded (atof : String → Option Rat)
    (enriched : Bool) (fns : List String) (articles rows : List SMap)
    (a : SMap) (u : String) (out : MergeOutcome)
    (ha : a ∈ articles) (hu : aget a "url" = some u) (hv : hasValue u = false)
    (hrun : integrate atof enriched fns articles rows = .ok out) :
    a ∉ out.unmatched ∧
    (∀ d, buildArticleDict articles = .ok d → ∀ p ∈ d, p.2 ≠ a) := by
  unfold integrate at hrun
  cases hb : buildArticleDict articles with
  | error e =>
    rw [hb] at hrun
    exact absurd hrun (by simp [except_error_bind])
  | ok dict =>
    rw [hb] at hrun
    simp only [except_ok_bind] at hrun
    have hnotval : ∀ p ∈ dict, p.2 ≠ a := by
      intro p hp he
      obtain ⟨hpu, hpv⟩ := buildArticleDict_values hb p hp
      rw [he, hu] at hpu
      injection hpu with hpu
      rw [← hpu] at hpv
      rw [hv] at hpv
      exact Bool.noConfusion hpv
    have hdarb : ∀ d, Except.ok dict = (Except.ok d : Except PyErr (AList SMap)) →
        ∀ p ∈ d, p.2 ≠ a := by
      intro d hd
      injection hd with hd
      subst hd
      exact hnotval
    refine ⟨?_, hdarb⟩
    cases hr : runRows atof enriched fns dict [] rows with
    | error e => rw [hr] at hrun; exact absurd hrun (by simp)
    | ok t =>
      obtain ⟨ls, chs, rms, d2, uk2⟩ := t
      rw [hr] at hrun
      simp only [except_ok_bind, except_pure_eq_ok, Except.ok.injEq] at hrun
      have hsub := runRows_dict_sub atof enriched fns rows dict [] ls chs rms d2 uk2 hr
      intro hmem
      rw [← hrun] at hmem
      obtain ⟨p, hp, hpa⟩ := List.mem_map.mp hmem
      exact hnotval p (hsub p hp) hpa


section C7C10Evaluation

attribute [local semireducible] Rat.add Rat.mul Rat.sub Rat.inv

/-- Witness for C7: merging one article into a one-row dataset updates the
institution cell (euro is numerically equal and kept in its original
formatting); merging the same article again into the result reports nothing
and changes nothing. -/
theorem c7_integrate_idempotent_witness :
    ∃ out2, integrate simpleAtof false witFieldnames [witArticle] [witRowMerged]
      = .ok out2 ∧ out2.changes = [] ∧ out2.removals = [] ∧
      out2.lines = [witRowMerged] :=
  c7_integrate_idempotent simpleAtof false witFieldnames [witArticle] [witRow]
    ⟨[witRowMerged], [], [("u1", "institution", "X", "MIT")], [], []⟩
    (by decide) (by decide) (by decide) (by decide)
    (by intro r hr; rw [List.mem_singleton.mp hr]; rfl) (by rfl)

/-- Witness for C10: an article with an empty url is absent from the
unmatched list (the non-matching dataset row is removed as stale, and the
article itself is silently discarded) and from the article dict. -/
theorem c10_valueless_url_witness :
    witNoUrlArticle ∉ (MergeOutcome.mk [] [] [] ["u1"] []).unmatched ∧
    (∀ d, buildArticleDict [witNoUrlArticle] = .ok d →
      ∀ p ∈ d, p.2 ≠ witNoUrlArticle) :=
  c10_valueless_url_articles_discarded simpleAtof false witFieldnames
    [witNoUrlArticle] [witRow] witNoUrlArticle "" ⟨[], [], [], ["u1"], []⟩
    (by decide) rfl rfl (by rfl)

end C7C10Evaluation

end OpenAPC
